import Mathlib

/-!
Verification of audiopixel: blend and smoothing helpers (`pixels_include.cpp`)

A shallow embedding of the six functions of `pixels_include.cpp`.

Modelling conventions.

* `int` / `int32_t` values are `Int`; every `int` operation of the source that can leave the
  32-bit range is followed by `wrap32`, the two's-complement reduction to `[-2^31, 2^31)`.
* `uint8_t` and `uint16_t` parameters are `Nat` (the callers' values are below `256`
  and `65536`).
* The functions that compute in `float` are embedded twice.
  - The exact reading (`hexWeightedMeanF`, `exponentialAverage`, `smooth`, `smooth2`): a
    `float` is the rational it denotes and no operation rounds. Statements made "in exact
    arithmetic" are about these definitions.
  - The binary32 reading (`exponentialAverageF32`, `smoothF32`, `smooth2F32`): a `float` is
    an `F32` (a finite value, an infinity or NaN) and every conversion `int → float` and
    every `float` operation rounds its exact result to the nearest binary32 value, ties to
    even (`F32.round`), one operation at a time.
* The conversion `float → int` is truncation toward zero; a value outside the 32-bit range
  (or NaN) has no defined conversion in the source, and the model gives `-2^31` there, the
  result of the x86 conversion instruction.
* A function that writes through a pointer returns the new content of the cell next to
  its result; the cells `previousValue` and `previousDelta` are distinct objects.
-/

namespace AudioPixel

/-- Two's-complement reduction of an integer to the signed 32-bit range. -/
def wrap32 (x : Int) : Int := (x + 2147483648) % 4294967296 - 2147483648

/-- The `int` left shift `x << n`: the shifted value reduced to 32 bits. For `n ≥ 32`
the source's shift has no defined value; the model keeps the same formula there. -/
def shl32 (x : Int) (n : Nat) : Int := wrap32 (x * 2 ^ n)

/-- Truncation of a rational toward zero. -/
def floatToInt (q : ℚ) : Int := q.num.tdiv (q.den : Int)

/-- Conversion `float → int` of a finite value: truncation toward zero when the truncated
value fits in 32 bits, `-2^31` otherwise. -/
def floatToInt32 (q : ℚ) : Int :=
  if -2147483649 < q ∧ q < 2147483648 then floatToInt q else -2147483648

/-- Integer overload:
`return (num_a * (255 - percent_b) + (num_b * percent_b)) / 255;` -/
def hexWeightedMean (num_a num_b : Int) (percent_b : Nat) : Int :=
  (wrap32 (wrap32 (num_a * (255 - (percent_b : Int)))
    + wrap32 (num_b * (percent_b : Int)))).tdiv 255

/-- Floating overload, exact reading:
`return (num_a * (255 - percent_b) + (num_b * percent_b)) / 255;` -/
def hexWeightedMeanF (num_a num_b : ℚ) (percent_b : Nat) : ℚ :=
  (num_a * (((255 - (percent_b : Int) : Int)) : ℚ) + num_b * ((percent_b : Int) : ℚ)) / 255

/-- Fast divide-by-255: `return (val + 1 + (val >> 8)) >> 8;` -/
def fast255Divide (val : Int) : Int :=
  wrap32 (wrap32 (val + 1) + (val >>> (8 : Nat))) >>> (8 : Nat)

/-- Exponential moving average, exact reading:
`return (((1 << binAlpha) - 1) * oldValue + newValue) / (1 << binAlpha);` -/
def exponentialAverage (newValue : Int) (oldValue : ℚ) (binAlpha : Nat) : ℚ :=
  (((wrap32 (shl32 1 binAlpha - 1) : Int) : ℚ) * oldValue + (newValue : ℚ))
    / ((shl32 1 binAlpha : Int) : ℚ)

/-- Single exponential smoothing, exact reading. The first component is the returned
value, the second the content of `*previousValue` on return. -/
def smooth (newValue : Int) (binAlpha : Nat) (previousValue : ℚ) (started : Bool) : ℚ × ℚ :=
  let previousValue1 : ℚ :=
    if started then exponentialAverage newValue previousValue binAlpha
    else (newValue : ℚ)
  (previousValue1, previousValue1)

/-- The two caller-owned cells of `smooth2`. -/
structure SmoothState where
  previousValue : ℚ
  previousDelta : ℚ
deriving DecidableEq

/-- Double exponential smoothing, exact reading. The first component is the returned
value, the second the content of the two cells on return. -/
def smooth2 (newValue : Nat) (binAlpha binBeta : Nat) (st : SmoothState) (started : Bool) :
    ℚ × SmoothState :=
  let delta : Int := floatToInt32 (((newValue : Int) : ℚ) - st.previousValue)
  let previousDelta1 : ℚ := exponentialAverage delta st.previousDelta binBeta
  let r := smooth (newValue : Int) binAlpha st.previousValue started
  (previousDelta1 + r.1, { previousValue := r.2, previousDelta := previousDelta1 })

/-- Repeated steady-state calls of `smooth` with the constant input `v`: the content of
the `previousValue` cell after `n` calls, starting from `v0`. -/
def smoothIter (v : Int) (binAlpha : Nat) (v0 : ℚ) : Nat → ℚ
  | 0 => v0
  | n + 1 => (smooth v binAlpha (smoothIter v binAlpha v0 n) true).2

/-- The commented-out body of the integer overload:
`return fast255Divide((num_a * (255 - percent_b) + (num_b * percent_b)));` -/
def hexWeightedMeanFast (num_a num_b : Int) (percent_b : Nat) : Int :=
  fast255Divide (wrap32 (wrap32 (num_a * (255 - (percent_b : Int)))
    + wrap32 (num_b * (percent_b : Int))))

/-- Repeated calls of `smooth2` with the constant input `v`, each on the cells left by
the previous call: index `0` is the cold-start call (`started = false`) on the initial
cells `st0`, index `n + 1` a further call with `started = true`. The first component is
the value returned by that call, the second the cells after it. -/
def smooth2Iter (v : Nat) (binAlpha binBeta : Nat) (st0 : SmoothState) :
    Nat → ℚ × SmoothState
  | 0 => smooth2 v binAlpha binBeta st0 false
  | n + 1 => smooth2 v binAlpha binBeta (smooth2Iter v binAlpha binBeta st0 n).2 true

/-! ## Binary32 reading -/

/-- Round to the nearest integer, ties to the even one. -/
def roundHalfEven (m : ℚ) : Int :=
  if m - (⌊m⌋ : ℚ) < 1 / 2 then ⌊m⌋
  else if 1 / 2 < m - (⌊m⌋ : ℚ) then ⌊m⌋ + 1
  else if ⌊m⌋ % 2 = 0 then ⌊m⌋ else ⌊m⌋ + 1

/-- A binary32 value: a finite number (kept as the rational it denotes; the sign of a zero
is not recorded), an infinity with its sign (`true` for negative), or NaN. -/
inductive F32 where
  | fin (q : ℚ)
  | inf (neg : Bool)
  | nan
deriving DecidableEq

/-- Spacing of the binary32 values around a non-zero `q`: `2^(e - 23)` with `e` the exponent
of `q` (`2^e ≤ |q| < 2^(e+1)`), not below the exponent `-126` of the subnormal range. -/
def F32.ulp (q : ℚ) : ℚ := (2 : ℚ) ^ (max (Int.log 2 |q|) (-126) - 23)

/-- Rounding of an exact result to binary32: nearest value, ties to even, overflow to an
infinity. -/
def F32.round (q : ℚ) : F32 :=
  if q = 0 then F32.fin 0
  else if (2 : ℚ) ^ (128 : Nat) ≤ |(roundHalfEven (q / F32.ulp q) : ℚ) * F32.ulp q| then
    F32.inf (decide (q < 0))
  else F32.fin ((roundHalfEven (q / F32.ulp q) : ℚ) * F32.ulp q)

/-- Conversion `int → float`. -/
def F32.ofInt (n : Int) : F32 := F32.round (n : ℚ)

/-- Conversion `float → int`. -/
def F32.toInt : F32 → Int
  | F32.fin q => floatToInt32 q
  | _ => -2147483648

/-- Negation. -/
def F32.neg : F32 → F32
  | F32.fin q => F32.fin (-q)
  | F32.inf s => F32.inf (!s)
  | F32.nan => F32.nan

/-- Addition of two binary32 values. -/
def F32.add : F32 → F32 → F32
  | F32.fin a, F32.fin b => F32.round (a + b)
  | F32.fin _, F32.inf s => F32.inf s
  | F32.inf s, F32.fin _ => F32.inf s
  | F32.inf s, F32.inf t => if s = t then F32.inf s else F32.nan
  | _, _ => F32.nan

/-- Subtraction of two binary32 values. -/
def F32.sub (x y : F32) : F32 := F32.add x (F32.neg y)

/-- Multiplication of two binary32 values. -/
def F32.mul : F32 → F32 → F32
  | F32.fin a, F32.fin b => F32.round (a * b)
  | F32.fin a, F32.inf s => if a = 0 then F32.nan else F32.inf (xor s (decide (a < 0)))
  | F32.inf s, F32.fin b => if b = 0 then F32.nan else F32.inf (xor s (decide (b < 0)))
  | F32.inf s, F32.inf t => F32.inf (xor s t)
  | _, _ => F32.nan

/-- Division of two binary32 values; a zero divisor is `+0`, which is what the conversion
of the `int` zero gives. -/
def F32.div : F32 → F32 → F32
  | F32.fin a, F32.fin b =>
    if b = 0 then (if a = 0 then F32.nan else F32.inf (decide (a < 0)))
    else F32.round (a / b)
  | F32.fin _, F32.inf _ => F32.fin 0
  | F32.inf s, F32.fin b => F32.inf (xor s (decide (b < 0)))
  | _, _ => F32.nan

/-- Exponential moving average, binary32 reading:
`return (((1 << binAlpha) - 1) * oldValue + newValue) / (1 << binAlpha);`
The `int` operands `(1 << binAlpha) - 1`, `newValue` and `1 << binAlpha` are converted to
`float` where they meet a `float`. -/
def exponentialAverageF32 (newValue : Int) (oldValue : F32) (binAlpha : Nat) : F32 :=
  F32.div
    (F32.add (F32.mul (F32.ofInt (wrap32 (shl32 1 binAlpha - 1))) oldValue)
      (F32.ofInt newValue))
    (F32.ofInt (shl32 1 binAlpha))

/-- Single exponential smoothing, binary32 reading. The first component is the returned
value, the second the content of `*previousValue` on return. -/
def smoothF32 (newValue : Int) (binAlpha : Nat) (previousValue : F32) (started : Bool) :
    F32 × F32 :=
  let previousValue1 : F32 :=
    if started then exponentialAverageF32 newValue previousValue binAlpha
    else F32.ofInt newValue
  (previousValue1, previousValue1)

/-- The two caller-owned cells of `smooth2`, binary32 reading. -/
structure SmoothStateF32 where
  previousValue : F32
  previousDelta : F32
deriving DecidableEq

/-- Double exponential smoothing, binary32 reading:
`int delta = newValue - (*previousValue);` converts `newValue` to `float`, subtracts in
`float` and converts the difference to `int`. The first component is the returned value,
the second the content of the two cells on return. -/
def smooth2F32 (newValue : Nat) (binAlpha binBeta : Nat) (st : SmoothStateF32)
    (started : Bool) : F32 × SmoothStateF32 :=
  let delta : Int := F32.toInt (F32.sub (F32.ofInt (newValue : Int)) st.previousValue)
  let previousDelta1 : F32 := exponentialAverageF32 delta st.previousDelta binBeta
  let r := smoothF32 (newValue : Int) binAlpha st.previousValue started
  (F32.add previousDelta1 r.1, { previousValue := r.2, previousDelta := previousDelta1 })

/-! ## Helper lemmas -/

theorem wrap32_of_range (x : Int) (h1 : -2147483648 ≤ x) (h2 : x ≤ 2147483647) :
    wrap32 x = x := by
  unfold wrap32
  omega

theorem two_pow_le_of_le_30 (bin : Nat) (h : bin ≤ 30) : (2 : Int) ^ bin ≤ 1073741824 := by
  have h2 : (2 : Int) ^ bin ≤ 2 ^ 30 := pow_le_pow_right₀ (by norm_num) h
  norm_num at h2
  exact h2

theorem shl32_one (bin : Nat) (h : bin ≤ 30) : shl32 1 bin = 2 ^ bin := by
  have h1 := two_pow_le_of_le_30 bin h
  have h0 : (0 : Int) < 2 ^ bin := by positivity
  unfold shl32
  rw [one_mul]
  exact wrap32_of_range _ (by omega) (by omega)

theorem shl32_one_sub (bin : Nat) (h : bin ≤ 30) : wrap32 (shl32 1 bin - 1) = 2 ^ bin - 1 := by
  have h1 := two_pow_le_of_le_30 bin h
  have h0 : (0 : Int) < 2 ^ bin := by positivity
  rw [shl32_one bin h]
  exact wrap32_of_range _ (by omega) (by omega)

theorem exponentialAverage_closed (newValue : Int) (oldValue : ℚ) (bin : Nat) (h : bin ≤ 30) :
    exponentialAverage newValue oldValue bin
      = ((2 ^ bin - 1) * oldValue + (newValue : ℚ)) / 2 ^ bin := by
  unfold exponentialAverage
  rw [shl32_one_sub bin h, shl32_one bin h]
  push_cast
  rfl

theorem smoothRatio_bounds (bin : Nat) :
    (0 : ℚ) ≤ (2 ^ bin - 1) / 2 ^ bin ∧ ((2 : ℚ) ^ bin - 1) / 2 ^ bin < 1 := by
  have h0 : (0 : ℚ) < 2 ^ bin := by positivity
  have h1 : (1 : ℚ) ≤ 2 ^ bin := one_le_pow₀ (by norm_num)
  constructor
  · apply div_nonneg <;> linarith
  · rw [div_lt_one h0]
    linarith

theorem smoothIter_step (v : Int) (binAlpha : Nat) (v0 : ℚ) (h : binAlpha ≤ 30) (n : Nat) :
    smoothIter v binAlpha v0 (n + 1) - (v : ℚ)
      = (2 ^ binAlpha - 1) / 2 ^ binAlpha * (smoothIter v binAlpha v0 n - (v : ℚ)) := by
  have h0 : (2 : ℚ) ^ binAlpha ≠ 0 := by positivity
  simp only [smoothIter, smooth, if_true]
  rw [exponentialAverage_closed v _ binAlpha h]
  field_simp
  ring

theorem smoothIter_closed (v : Int) (binAlpha : Nat) (v0 : ℚ) (h : binAlpha ≤ 30) (n : Nat) :
    smoothIter v binAlpha v0 n - (v : ℚ)
      = (v0 - (v : ℚ)) * ((2 ^ binAlpha - 1) / 2 ^ binAlpha) ^ n := by
  induction n with
  | zero => simp [smoothIter]
  | succ k ih =>
    rw [smoothIter_step v binAlpha v0 h k, ih, pow_succ]
    ring

theorem floatToInt_intCast (k : Int) : floatToInt (k : ℚ) = k := by
  unfold floatToInt
  rw [Rat.num_intCast, Rat.den_intCast]
  exact Int.tdiv_one k

theorem floatToInt_of_nonneg (q : ℚ) (h : 0 ≤ q) : floatToInt q = ⌊q⌋ := by
  unfold floatToInt
  rw [Rat.floor_def, Int.tdiv_eq_ediv (Rat.num_nonneg.mpr h) (by positivity)]

theorem floatToInt_neg (q : ℚ) : floatToInt (-q) = -floatToInt q := by
  unfold floatToInt
  rw [Rat.num_neg_eq_neg_num, Rat.den_neg_eq_den, Int.neg_tdiv]

theorem floatToInt_of_nonpos (q : ℚ) (h : q ≤ 0) : floatToInt q = ⌈q⌉ := by
  have h1 := floatToInt_of_nonneg (-q) (by linarith)
  rw [floatToInt_neg, Int.floor_neg] at h1
  exact neg_injective h1

theorem floatToInt32_of_range (q : ℚ) (h1 : -2147483649 < q) (h2 : q < 2147483648) :
    floatToInt32 q = floatToInt q := by
  unfold floatToInt32
  rw [if_pos ⟨h1, h2⟩]

theorem floatToInt32_intCast (k : Int) (h1 : -2147483648 ≤ k) (h2 : k ≤ 2147483647) :
    floatToInt32 (k : ℚ) = k := by
  have a1 : (-2147483649 : ℚ) < (k : ℚ) := by
    have : ((-2147483649 : Int) : ℚ) < (k : ℚ) := by exact_mod_cast (by omega : -2147483649 < k)
    simpa using this
  have a2 : (k : ℚ) < 2147483648 := by
    have : (k : ℚ) < ((2147483648 : Int) : ℚ) := by exact_mod_cast (by omega : k < 2147483648)
    simpa using this
  rw [floatToInt32_of_range _ a1 a2, floatToInt_intCast]

theorem hexWeightedMean_of_sum_in_range (a b : Int) (p : Nat)
    (h1 : -2147483648 ≤ a * (255 - (p : Int)) + b * (p : Int))
    (h2 : a * (255 - (p : Int)) + b * (p : Int) ≤ 2147483647) :
    hexWeightedMean a b p = (a * (255 - (p : Int)) + b * (p : Int)).tdiv 255 := by
  have e : wrap32 (wrap32 (a * (255 - (p : Int))) + wrap32 (b * (p : Int)))
      = a * (255 - (p : Int)) + b * (p : Int) := by
    generalize a * (255 - (p : Int)) = x at h1 h2 ⊢
    generalize b * (p : Int) = y at h1 h2 ⊢
    unfold wrap32
    omega
  unfold hexWeightedMean
  rw [e]

theorem tdiv_255_bounds (s lo hi : Int) (h1 : 255 * lo ≤ s) (h2 : s ≤ 255 * hi) :
    lo ≤ s.tdiv 255 ∧ s.tdiv 255 ≤ hi := by
  rcases le_or_lt 0 s with hs | hs
  · rw [Int.tdiv_eq_ediv hs (by decide)]
    omega
  · have e : s.tdiv 255 = -((-s) / 255) := by
      rw [← Int.tdiv_eq_ediv (by omega) (by decide), Int.neg_tdiv, neg_neg]
    rw [e]
    omega

theorem floatToInt_div (n : Int) (d : Nat) (hd : 0 < d) :
    floatToInt ((n : ℚ) / (d : ℚ)) = n.tdiv (d : Int) := by
  have key : ∀ m : Int, 0 ≤ m → floatToInt ((m : ℚ) / (d : ℚ)) = m.tdiv (d : Int) := by
    intro m hm
    have hq : (0 : ℚ) ≤ (m : ℚ) / (d : ℚ) := by positivity
    rw [floatToInt_of_nonneg _ hq, Rat.floor_intCast_div_natCast,
      Int.tdiv_eq_ediv hm (by positivity)]
  rcases le_or_lt 0 n with hn | hn
  · exact key n hn
  · have h := key (-n) (by omega)
    rw [Int.cast_neg, neg_div, floatToInt_neg, Int.neg_tdiv] at h
    exact neg_injective h

theorem fast255Divide_of_range (value : Int) (h0 : 0 ≤ value) (h1 : value ≤ 65535) :
    fast255Divide value = (value + 1 + value / 256) / 256 := by
  have hs : value >>> (8 : Nat) = value / 256 := by
    rw [Int.shiftRight_eq_div_pow]; rfl
  have hw1 : wrap32 (value + 1) = value + 1 := wrap32_of_range _ (by omega) (by omega)
  have hw2 : wrap32 (value + 1 + value / 256) = value + 1 + value / 256 :=
    wrap32_of_range _ (by omega) (by omega)
  unfold fast255Divide
  rw [hs, hw1, hw2, Int.shiftRight_eq_div_pow]
  rfl

theorem blend_sum_bounds (a b lo hi : Int) (p : Nat) (hp : p ≤ 255)
    (ha : lo ≤ a ∧ a ≤ hi) (hb : lo ≤ b ∧ b ≤ hi) :
    255 * lo ≤ a * (255 - (p : Int)) + b * (p : Int) ∧
    a * (255 - (p : Int)) + b * (p : Int) ≤ 255 * hi := by
  have hq : (0 : Int) ≤ 255 - (p : Int) := by omega
  have hp0 : (0 : Int) ≤ (p : Int) := by omega
  have e1 := mul_le_mul_of_nonneg_right ha.1 hq
  have e2 := mul_le_mul_of_nonneg_right ha.2 hq
  have e3 := mul_le_mul_of_nonneg_right hb.1 hp0
  have e4 := mul_le_mul_of_nonneg_right hb.2 hp0
  constructor <;> nlinarith

theorem floatToInt_of_abs_lt_one (q : ℚ) (h : |q| < 1) : floatToInt q = 0 := by
  rw [abs_lt] at h
  rcases le_or_lt 0 q with hq | hq
  · rw [floatToInt_of_nonneg q hq, Int.floor_eq_iff]
    constructor
    · simpa using hq
    · simpa using h.2
  · rw [floatToInt_of_nonpos q hq.le, Int.ceil_eq_iff]
    constructor
    · simpa using h.1
    · simpa using hq.le

theorem geometric_eventually_small (A r ε : ℚ) (hr0 : 0 ≤ r) (hr1 : r < 1) (hε : 0 < ε) :
    ∃ N : Nat, ∀ n, N ≤ n → |A * r ^ n| < ε := by
  have hA : (0 : ℚ) < |A| + 1 := by
    have := abs_nonneg A
    linarith
  obtain ⟨N, hN⟩ := exists_pow_lt_of_lt_one (div_pos hε hA) hr1
  refine ⟨N, fun n hn => ?_⟩
  rw [abs_mul, abs_pow, abs_of_nonneg hr0]
  have hle : r ^ n ≤ r ^ N := pow_le_pow_of_le_one hr0 hr1.le hn
  have hpn : (0 : ℚ) ≤ r ^ n := pow_nonneg hr0 n
  have hlt : r ^ n < ε / (|A| + 1) := lt_of_le_of_lt hle hN
  rw [lt_div_iff₀ hA] at hlt
  have := abs_nonneg A
  nlinarith

theorem exponentialAverage_same (x : Int) (bin : Nat) (h : bin ≤ 30) :
    exponentialAverage x (x : ℚ) bin = (x : ℚ) := by
  rw [exponentialAverage_closed x x bin h]
  have h0 : (2 : ℚ) ^ bin ≠ 0 := by positivity
  field_simp
  ring

theorem exponentialAverage_zero (d : ℚ) (bin : Nat) (h : bin ≤ 30) :
    exponentialAverage 0 d bin = (2 ^ bin - 1) / 2 ^ bin * d := by
  rw [exponentialAverage_closed 0 d bin h]
  have h0 : (2 : ℚ) ^ bin ≠ 0 := by positivity
  field_simp

theorem smooth2_at_level (v binAlpha binBeta : Nat) (d : ℚ) (hα : binAlpha ≤ 30)
    (hβ : binBeta ≤ 30) :
    smooth2 v binAlpha binBeta ⟨((v : Int) : ℚ), d⟩ true
      = (((v : Int) : ℚ) + (2 ^ binBeta - 1) / 2 ^ binBeta * d,
          ⟨((v : Int) : ℚ), (2 ^ binBeta - 1) / 2 ^ binBeta * d⟩) := by
  simp only [smooth2, smooth, if_true]
  rw [sub_self, show (0 : ℚ) = ((0 : Int) : ℚ) by norm_num,
    floatToInt32_intCast 0 (by decide) (by decide),
    exponentialAverage_zero d binBeta hβ, exponentialAverage_same (v : Int) binAlpha hα,
    add_comm]

theorem smooth2Iter_state (v binAlpha binBeta : Nat) (st0 : SmoothState)
    (hα : binAlpha ≤ 30) (hβ : binBeta ≤ 30) (n : Nat) :
    smooth2Iter v binAlpha binBeta st0 n
      = (((v : Int) : ℚ) + (smooth2 v binAlpha binBeta st0 false).2.previousDelta
            * ((2 ^ binBeta - 1) / 2 ^ binBeta) ^ n,
          ⟨((v : Int) : ℚ), (smooth2 v binAlpha binBeta st0 false).2.previousDelta
            * ((2 ^ binBeta - 1) / 2 ^ binBeta) ^ n⟩) := by
  induction n with
  | zero =>
    simp only [smooth2Iter, smooth2, smooth, pow_zero, mul_one]
    simp [add_comm]
  | succ k ih =>
    simp only [smooth2Iter]
    rw [ih]
    simp only []
    rw [smooth2_at_level v binAlpha binBeta _ hα hβ, pow_succ]
    ring_nf

/-! ## Binary32 rounding -/

theorem roundHalfEven_eq (m : ℚ) (n : Int)
    (h : |m - (n : ℚ)| < 1 / 2 ∨ (|m - (n : ℚ)| = 1 / 2 ∧ n % 2 = 0)) :
    roundHalfEven m = n := by
  have hf1 : ((⌊m⌋ : Int) : ℚ) ≤ m := Int.floor_le m
  have hf2 : m < ((⌊m⌋ : Int) : ℚ) + 1 := Int.lt_floor_add_one m
  have hb : -(1 / 2 : ℚ) ≤ m - n ∧ m - n ≤ 1 / 2 := by
    rcases h with h | ⟨h, _⟩
    · rw [abs_lt] at h; exact ⟨h.1.le, h.2.le⟩
    · have := abs_le.mp h.le; exact this
  generalize hfl : ⌊m⌋ = f at hf1 hf2
  unfold roundHalfEven
  rw [hfl]
  split_ifs with h1 h2 h3
  · have a1 : ((f - n : Int) : ℚ) < 1 := by push_cast; linarith
    have a2 : (-1 : ℚ) < ((f - n : Int) : ℚ) := by push_cast; linarith
    have a1' : f - n < 1 := by exact_mod_cast a1
    have a2' : -1 < f - n := by exact_mod_cast a2
    omega
  · have a1 : ((f + 1 - n : Int) : ℚ) < 1 := by push_cast; linarith
    have a2 : (-1 : ℚ) < ((f + 1 - n : Int) : ℚ) := by push_cast; linarith
    have a1' : f + 1 - n < 1 := by exact_mod_cast a1
    have a2' : -1 < f + 1 - n := by exact_mod_cast a2
    omega
  · have hd : m - (f : ℚ) = 1 / 2 := le_antisymm (not_lt.mp h2) (not_lt.mp h1)
    rcases h with h | ⟨h, hn⟩
    · exfalso
      rw [abs_lt] at h
      have a1 : ((f - n : Int) : ℚ) < 0 := by push_cast; linarith
      have a2 : (-1 : ℚ) < ((f - n : Int) : ℚ) := by push_cast; linarith
      have a1' : f - n < 0 := by exact_mod_cast a1
      have a2' : -1 < f - n := by exact_mod_cast a2
      omega
    · have a1 : ((f - n : Int) : ℚ) ≤ 0 := by push_cast; linarith
      have a2 : (-1 : ℚ) ≤ ((f - n : Int) : ℚ) := by push_cast; linarith
      have a1' : f - n ≤ 0 := by exact_mod_cast a1
      have a2' : -1 ≤ f - n := by exact_mod_cast a2
      omega
  · have hd : m - (f : ℚ) = 1 / 2 := le_antisymm (not_lt.mp h2) (not_lt.mp h1)
    rcases h with h | ⟨h, hn⟩
    · exfalso
      rw [abs_lt] at h
      have a1 : ((f - n : Int) : ℚ) < 0 := by push_cast; linarith
      have a2 : (-1 : ℚ) < ((f - n : Int) : ℚ) := by push_cast; linarith
      have a1' : f - n < 0 := by exact_mod_cast a1
      have a2' : -1 < f - n := by exact_mod_cast a2
      omega
    · have a1 : ((f - n : Int) : ℚ) ≤ 0 := by push_cast; linarith
      have a2 : (-1 : ℚ) ≤ ((f - n : Int) : ℚ) := by push_cast; linarith
      have a1' : f - n ≤ 0 := by exact_mod_cast a1
      have a2' : -1 ≤ f - n := by exact_mod_cast a2
      omega

theorem roundHalfEven_intCast (n : Int) : roundHalfEven (n : ℚ) = n :=
  roundHalfEven_eq _ n (Or.inl (by simp))

theorem F32.ulp_eq (q : ℚ) (e : Int) (he : -126 ≤ e) (h1 : (2 : ℚ) ^ e ≤ |q|)
    (h2 : |q| < (2 : ℚ) ^ (e + 1)) : F32.ulp q = (2 : ℚ) ^ (e - 23) := by
  have hpos : (0 : ℚ) < |q| := lt_of_lt_of_le (by positivity) h1
  have l1 : e ≤ Int.log 2 |q| := (Int.zpow_le_iff_le_log (by norm_num) hpos).mp (by exact_mod_cast h1)
  have l2 : Int.log 2 |q| < e + 1 := (Int.lt_zpow_iff_log_lt (by norm_num) hpos).mp (by exact_mod_cast h2)
  have l3 : Int.log 2 |q| = e := by omega
  unfold F32.ulp
  rw [l3, max_eq_left he]

theorem F32.round_eval (q r : ℚ) (e n : Int) (he : -126 ≤ e) (h1 : (2 : ℚ) ^ e ≤ |q|)
    (h2 : |q| < (2 : ℚ) ^ (e + 1))
    (hn : |q / (2 : ℚ) ^ (e - 23) - (n : ℚ)| < 1 / 2
      ∨ (|q / (2 : ℚ) ^ (e - 23) - (n : ℚ)| = 1 / 2 ∧ n % 2 = 0))
    (hr : r = (n : ℚ) * (2 : ℚ) ^ (e - 23)) (hfin : |r| < (2 : ℚ) ^ (128 : Nat)) :
    F32.round q = F32.fin r := by
  have hq : q ≠ 0 := by
    intro h0
    rw [h0, abs_zero] at h1
    have : (0 : ℚ) < (2 : ℚ) ^ e := by positivity
    linarith
  unfold F32.round
  rw [if_neg hq, F32.ulp_eq q e he h1 h2, roundHalfEven_eq _ n hn, ← hr, if_neg (not_le.mpr hfin)]

theorem F32.round_representable (k j : Int) (hk : |k| < 16777216) (hj : -149 ≤ j)
    (hj2 : j ≤ 104) : F32.round ((k : ℚ) * (2 : ℚ) ^ j) = F32.fin ((k : ℚ) * (2 : ℚ) ^ j) := by
  rcases eq_or_ne k 0 with hk0 | hk0
  · subst hk0
    simp [F32.round]
  have h2j : (0 : ℚ) < (2 : ℚ) ^ j := by positivity
  have hkq : (k : ℚ) ≠ 0 := by exact_mod_cast hk0
  have hq : (k : ℚ) * (2 : ℚ) ^ j ≠ 0 := mul_ne_zero hkq h2j.ne'
  have habs : |(k : ℚ) * (2 : ℚ) ^ j| = |(k : ℚ)| * (2 : ℚ) ^ j := by
    rw [abs_mul, abs_of_pos h2j]
  have hkabs : |(k : ℚ)| < 16777216 := by
    have : ((|k| : Int) : ℚ) < ((16777216 : Int) : ℚ) := by exact_mod_cast hk
    simpa using this
  have hpos : (0 : ℚ) < |(k : ℚ) * (2 : ℚ) ^ j| := abs_pos.mpr hq
  -- the binade exponent is at most `j + 23`
  have hlog : Int.log 2 |(k : ℚ) * (2 : ℚ) ^ j| < j + 24 := by
    rw [← Int.lt_zpow_iff_log_lt (by norm_num) hpos, habs]
    have : (2 : ℚ) ^ (j + 24) = 16777216 * (2 : ℚ) ^ j := by
      rw [zpow_add₀ (by norm_num)]; norm_num; ring
    push_cast
    rw [this]
    exact mul_lt_mul_of_pos_right hkabs h2j
  obtain ⟨t, ht⟩ : ∃ t : Nat, (t : Int) = j + 23 - max (Int.log 2 |(k : ℚ) * (2 : ℚ) ^ j|) (-126) :=
    ⟨(j + 23 - max (Int.log 2 |(k : ℚ) * (2 : ℚ) ^ j|) (-126)).toNat, by
      rw [Int.toNat_of_nonneg]
      have := max_le (show Int.log 2 |(k : ℚ) * (2 : ℚ) ^ j| ≤ j + 23 by omega)
        (show (-126 : Int) ≤ j + 23 by omega)
      omega⟩
  have hulp : F32.ulp ((k : ℚ) * (2 : ℚ) ^ j) = (2 : ℚ) ^ (j - (t : Int)) := by
    unfold F32.ulp
    congr 1
    omega
  have hdiv : (k : ℚ) * (2 : ℚ) ^ j / (2 : ℚ) ^ (j - (t : Int)) = ((k * 2 ^ t : Int) : ℚ) := by
    rw [zpow_sub₀ (by norm_num : (2 : ℚ) ≠ 0)]
    push_cast
    field_simp
    ring
  have hback : ((k * 2 ^ t : Int) : ℚ) * (2 : ℚ) ^ (j - (t : Int)) = (k : ℚ) * (2 : ℚ) ^ j := by
    rw [zpow_sub₀ (by norm_num : (2 : ℚ) ≠ 0)]
    push_cast
    field_simp
    ring
  have hfin : |(k : ℚ) * (2 : ℚ) ^ j| < (2 : ℚ) ^ (128 : Nat) := by
    rw [habs]
    have h104 : (2 : ℚ) ^ j ≤ (2 : ℚ) ^ (104 : Int) := zpow_le_zpow_right₀ (by norm_num) hj2
    have e128 : (2 : ℚ) ^ (128 : Nat) = 16777216 * (2 : ℚ) ^ (104 : Int) := by norm_num
    rw [e128]
    calc |(k : ℚ)| * (2 : ℚ) ^ j < 16777216 * (2 : ℚ) ^ j := mul_lt_mul_of_pos_right hkabs h2j
      _ ≤ 16777216 * (2 : ℚ) ^ (104 : Int) := by
        apply mul_le_mul_of_nonneg_left h104 (by norm_num)
  unfold F32.round
  rw [if_neg hq, hulp, hdiv, roundHalfEven_intCast, hback, if_neg (not_le.mpr hfin)]

theorem F32.ofInt_of_abs_le (x : Int) (h : |x| ≤ 16777216) : F32.ofInt x = F32.fin (x : ℚ) := by
  unfold F32.ofInt
  rcases lt_or_eq_of_le h with h1 | h1
  · have := F32.round_representable x 0 h1 (by decide) (by decide)
    simpa using this
  · have hx : x = 8388608 * 2 ∨ x = -8388608 * 2 := by
      rcases abs_eq (by decide : (0 : Int) ≤ 16777216) |>.mp h1 with h2 | h2 <;> omega
    rcases hx with hx | hx
    · have := F32.round_representable 8388608 1 (by decide) (by decide) (by decide)
      rw [hx]
      norm_num at this ⊢
      exact this
    · have := F32.round_representable (-8388608) 1 (by decide) (by decide) (by decide)
      rw [hx]
      norm_num at this ⊢
      exact this


theorem F32.round_zero : F32.round 0 = F32.fin 0 := by
  simp [F32.round]

theorem F32.round_intCast (x : Int) (h : |x| ≤ 16777216) :
    F32.round (x : ℚ) = F32.fin (x : ℚ) := F32.ofInt_of_abs_le x h

theorem exponentialAverageF32_zero_shift (x : Int) (y : ℚ) (h : |x| ≤ 16777216) :
    exponentialAverageF32 x (F32.fin y) 0 = F32.fin (x : ℚ) := by
  have s1 : wrap32 (shl32 1 0 - 1) = 0 := by decide
  have s2 : shl32 1 0 = 1 := by decide
  have c0 : F32.ofInt 0 = F32.fin 0 := by simpa using F32.ofInt_of_abs_le 0 (by decide)
  have c1 : F32.ofInt 1 = F32.fin 1 := by simpa using F32.ofInt_of_abs_le 1 (by decide)
  unfold exponentialAverageF32
  rw [s1, s2, c0, c1, F32.ofInt_of_abs_le x h]
  simp only [F32.mul, F32.add, F32.div, zero_mul, F32.round_zero, zero_add,
    F32.round_intCast x h, one_ne_zero, if_false, div_one]

theorem F32.sub_ofInt_intCast (v : Nat) (k : Int) (hv : v ≤ 16777216)
    (hk : |(v : Int) - k| ≤ 16777216) :
    F32.sub (F32.ofInt (v : Int)) (F32.fin (k : ℚ)) = F32.fin (((v : Int) - k : Int) : ℚ) ∧
    F32.toInt (F32.sub (F32.ofInt (v : Int)) (F32.fin (k : ℚ))) = (v : Int) - k := by
  have hv2 : |(v : Int)| ≤ 16777216 := by
    rw [abs_le]; constructor <;> omega
  have e : F32.sub (F32.ofInt (v : Int)) (F32.fin (k : ℚ))
      = F32.fin (((v : Int) - k : Int) : ℚ) := by
    rw [F32.ofInt_of_abs_le _ hv2]
    simp only [F32.sub, F32.neg, F32.add]
    rw [← sub_eq_add_neg, ← Int.cast_sub]
    exact F32.round_intCast _ hk
  refine ⟨e, ?_⟩
  rw [e]
  rw [abs_le] at hk
  exact floatToInt32_intCast _ (by omega) (by omega)

theorem F32.round_of_eq (q : ℚ) (k j : Int) (hq : q = (k : ℚ) * (2 : ℚ) ^ j)
    (hk : |k| < 16777216) (hj : -149 ≤ j) (hj2 : j ≤ 104) : F32.round q = F32.fin q := by
  rw [hq]
  exact F32.round_representable k j hk hj hj2

theorem F32.ofInt_eq_of_round (n : Int) (r : ℚ) (h : F32.round (n : ℚ) = F32.fin r) :
    F32.ofInt n = F32.fin r := h

theorem F32.add_eq_of_round (a b r : ℚ) (h : F32.round (a + b) = F32.fin r) :
    F32.add (F32.fin a) (F32.fin b) = F32.fin r := h

theorem F32.sub_eq_of_round (a b r : ℚ) (h : F32.round (a + -b) = F32.fin r) :
    F32.sub (F32.fin a) (F32.fin b) = F32.fin r := h

theorem F32.mul_eq_of_round (a b r : ℚ) (h : F32.round (a * b) = F32.fin r) :
    F32.mul (F32.fin a) (F32.fin b) = F32.fin r := h

theorem F32.div_eq_of_round (a b r : ℚ) (hb : b ≠ 0) (h : F32.round (a / b) = F32.fin r) :
    F32.div (F32.fin a) (F32.fin b) = F32.fin r := by
  simp only [F32.div, if_neg hb, h]

theorem F32.toInt_fin_intCast (k : Int) (h1 : -2147483648 ≤ k) (h2 : k ≤ 2147483647) :
    F32.toInt (F32.fin (k : ℚ)) = k := floatToInt32_intCast k h1 h2

/-! ### Evaluation of single operations at concrete inputs -/

theorem ofInt_16777217 : F32.ofInt 16777217 = F32.fin 16777216 :=
  F32.ofInt_eq_of_round _ _ (F32.round_eval _ _ 24 8388608 (by decide) (by norm_num)
    (by norm_num) (Or.inr ⟨by norm_num [abs_eq], by decide⟩) (by norm_num)
    (by norm_num [abs_lt]))

theorem ofInt_33554431 : F32.ofInt 33554431 = F32.fin 33554432 :=
  F32.ofInt_eq_of_round _ _ (F32.round_eval _ _ 24 16777216 (by decide) (by norm_num)
    (by norm_num) (Or.inr ⟨by norm_num [abs_eq], by decide⟩) (by norm_num)
    (by norm_num [abs_lt]))

theorem ofInt_1073741823 : F32.ofInt 1073741823 = F32.fin 1073741824 :=
  F32.ofInt_eq_of_round _ _ (F32.round_eval _ _ 29 16777216 (by decide) (by norm_num)
    (by norm_num) (Or.inl (by norm_num [abs_lt])) (by norm_num) (by norm_num [abs_lt]))

theorem ofInt_33554432 : F32.ofInt 33554432 = F32.fin 33554432 :=
  F32.ofInt_eq_of_round _ _ (by
    have := F32.round_of_eq (((33554432 : Int) : ℚ)) 1 25 (by norm_num) (by decide)
      (by decide) (by decide)
    simpa using this)

theorem ofInt_1073741824 : F32.ofInt 1073741824 = F32.fin 1073741824 :=
  F32.ofInt_eq_of_round _ _ (by
    have := F32.round_of_eq (((1073741824 : Int) : ℚ)) 1 30 (by norm_num) (by decide)
      (by decide) (by decide)
    simpa using this)

theorem ofInt_0 : F32.ofInt 0 = F32.fin 0 := by
  simpa using F32.ofInt_of_abs_le 0 (by decide)

theorem ofInt_1 : F32.ofInt 1 = F32.fin 1 := by
  simpa using F32.ofInt_of_abs_le 1 (by decide)

theorem ofInt_3 : F32.ofInt 3 = F32.fin 3 := by
  simpa using F32.ofInt_of_abs_le 3 (by decide)

theorem ofInt_10 : F32.ofInt 10 = F32.fin 10 := by
  simpa using F32.ofInt_of_abs_le 10 (by decide)

theorem ofInt_20 : F32.ofInt 20 = F32.fin 20 := by
  simpa using F32.ofInt_of_abs_le 20 (by decide)

theorem ofInt_65535 : F32.ofInt 65535 = F32.fin 65535 := by
  simpa using F32.ofInt_of_abs_le 65535 (by decide)

theorem ofInt_16777215 : F32.ofInt 16777215 = F32.fin 16777215 := by
  simpa using F32.ofInt_of_abs_le 16777215 (by decide)

theorem ofInt_16777216 : F32.ofInt 16777216 = F32.fin 16777216 := by
  simpa using F32.ofInt_of_abs_le 16777216 (by decide)

theorem round_cx8_mul : F32.round (16777215 * 10 : ℚ) = F32.fin (167772144) :=
  F32.round_eval _ _ (27) (10485759) (by decide)
    (by rw [abs_of_nonneg (by norm_num)]; norm_num)
    (by rw [abs_of_nonneg (by norm_num)]; norm_num)
    (Or.inl (by norm_num [abs_lt])) (by norm_num) (by norm_num [abs_lt])

theorem round_cx8_add : F32.round (167772144 + 20 : ℚ) = F32.fin (167772160) :=
  F32.round_eval _ _ (27) (10485760) (by decide)
    (by rw [abs_of_nonneg (by norm_num)]; norm_num)
    (by rw [abs_of_nonneg (by norm_num)]; norm_num)
    (Or.inl (by norm_num [abs_lt])) (by norm_num) (by norm_num [abs_lt])

theorem round_cx8_div : F32.round (167772160 / 16777216 : ℚ) = F32.fin (10) := by
  have h := F32.round_of_eq (167772160 / 16777216 : ℚ) (10) (0) (by norm_num) (by decide) (by decide)
    (by decide)
  rw [h]
  norm_num

theorem exponentialAverageF32_20_10_24 : exponentialAverageF32 20 (F32.fin 10) 24 = F32.fin 10 := by
  unfold exponentialAverageF32
  rw [show wrap32 (shl32 1 24 - 1) = 16777215 by decide,
    show shl32 1 24 = 16777216 by decide, ofInt_16777215, ofInt_16777216, ofInt_20,
    F32.mul_eq_of_round _ _ _ round_cx8_mul, F32.add_eq_of_round _ _ _ round_cx8_add,
    F32.div_eq_of_round _ _ _ (by norm_num) round_cx8_div]

theorem smoothF32_20_24_10 : smoothF32 20 24 (F32.fin 10) true = (F32.fin 10, F32.fin 10) := by
  simp only [smoothF32, if_true, exponentialAverageF32_20_10_24]

theorem round_3_mul_20 : F32.round (3 * 20 : ℚ) = F32.fin (60) := by
  have h := F32.round_of_eq (3 * 20 : ℚ) (60) (0) (by norm_num) (by decide) (by decide)
    (by decide)
  rw [h]
  norm_num

theorem round_60_add_20 : F32.round (60 + 20 : ℚ) = F32.fin (80) := by
  have h := F32.round_of_eq (60 + 20 : ℚ) (80) (0) (by norm_num) (by decide) (by decide)
    (by decide)
  rw [h]
  norm_num

theorem round_80_div_4 : F32.round (80 / 4 : ℚ) = F32.fin (20) := by
  have h := F32.round_of_eq (80 / 4 : ℚ) (20) (0) (by norm_num) (by decide) (by decide)
    (by decide)
  rw [h]
  norm_num

theorem exponentialAverageF32_20_20_2 : exponentialAverageF32 20 (F32.fin 20) 2 = F32.fin 20 := by
  unfold exponentialAverageF32
  rw [show wrap32 (shl32 1 2 - 1) = 3 by decide, show shl32 1 2 = 4 by decide,
    ofInt_3, ofInt_20, show F32.ofInt 4 = F32.fin 4 by simpa using F32.ofInt_of_abs_le 4 (by decide),
    F32.mul_eq_of_round _ _ _ round_3_mul_20, F32.add_eq_of_round _ _ _ round_60_add_20,
    F32.div_eq_of_round _ _ _ (by norm_num) round_80_div_4]

theorem round_20_sub_10 : F32.round (20 + -10 : ℚ) = F32.fin (10) := by
  have h := F32.round_of_eq (20 + -10 : ℚ) (10) (0) (by norm_num) (by decide) (by decide)
    (by decide)
  rw [h]
  norm_num

theorem round_cx11_mul : F32.round (33554432 * 4 : ℚ) = F32.fin (134217728) := by
  have h := F32.round_of_eq (33554432 * 4 : ℚ) (1) (27) (by norm_num) (by decide) (by decide)
    (by decide)
  rw [h]
  norm_num

theorem round_cx11_add : F32.round (134217728 + 10 : ℚ) = F32.fin (134217744) :=
  F32.round_eval _ _ (27) (8388609) (by decide)
    (by rw [abs_of_nonneg (by norm_num)]; norm_num)
    (by rw [abs_of_nonneg (by norm_num)]; norm_num)
    (Or.inl (by norm_num [abs_lt])) (by norm_num) (by norm_num [abs_lt])

theorem round_cx11_div : F32.round (134217744 / 33554432 : ℚ) = F32.fin (8388609 / 2097152) := by
  have h := F32.round_of_eq (134217744 / 33554432 : ℚ) (8388609) (-21) (by norm_num) (by decide) (by decide)
    (by decide)
  rw [h]
  norm_num

theorem round_cx11_ret : F32.round (8388609 / 2097152 + 20 : ℚ) = F32.fin (24) :=
  F32.round_eval _ _ (4) (12582912) (by decide)
    (by rw [abs_of_nonneg (by norm_num)]; norm_num)
    (by rw [abs_of_nonneg (by norm_num)]; norm_num)
    (Or.inl (by norm_num [abs_lt])) (by norm_num) (by norm_num [abs_lt])

theorem round_cx11_mul2 : F32.round (33554432 * (8388609 / 2097152) : ℚ) = F32.fin (134217744) := by
  have h := F32.round_of_eq (33554432 * (8388609 / 2097152) : ℚ) (8388609) (4) (by norm_num) (by decide) (by decide)
    (by decide)
  rw [h]
  norm_num

theorem round_cx11_add2 : F32.round (134217744 + 0 : ℚ) = F32.fin (134217744) := by
  have h := F32.round_of_eq (134217744 + 0 : ℚ) (8388609) (4) (by norm_num) (by decide) (by decide)
    (by decide)
  rw [h]
  norm_num

theorem round_20_sub_20 : F32.round (20 + -20 : ℚ) = F32.fin 0 := by
  rw [show (20 + -20 : ℚ) = 0 by norm_num]
  exact F32.round_zero

theorem toInt_fin_10 : F32.toInt (F32.fin 10) = 10 := by
  simpa using F32.toInt_fin_intCast 10 (by decide) (by decide)

theorem toInt_fin_0 : F32.toInt (F32.fin 0) = 0 := by
  simpa using F32.toInt_fin_intCast 0 (by decide) (by decide)

theorem toInt_fin_1 : F32.toInt (F32.fin 1) = 1 := by
  simpa using F32.toInt_fin_intCast 1 (by decide) (by decide)

theorem toInt_fin_65535 : F32.toInt (F32.fin 65535) = 65535 := by
  simpa using F32.toInt_fin_intCast 65535 (by decide) (by decide)

theorem exponentialAverageF32_10_4_25 :
    exponentialAverageF32 10 (F32.fin 4) 25 = F32.fin (8388609 / 2097152) := by
  unfold exponentialAverageF32
  rw [show wrap32 (shl32 1 25 - 1) = 33554431 by decide,
    show shl32 1 25 = 33554432 by decide, ofInt_33554431, ofInt_33554432, ofInt_10,
    F32.mul_eq_of_round _ _ _ round_cx11_mul, F32.add_eq_of_round _ _ _ round_cx11_add,
    F32.div_eq_of_round _ _ _ (by norm_num) round_cx11_div]

theorem exponentialAverageF32_0_d1_25 :
    exponentialAverageF32 0 (F32.fin (8388609 / 2097152)) 25
      = F32.fin (8388609 / 2097152) := by
  unfold exponentialAverageF32
  rw [show wrap32 (shl32 1 25 - 1) = 33554431 by decide,
    show shl32 1 25 = 33554432 by decide, ofInt_33554431, ofInt_33554432, ofInt_0,
    F32.mul_eq_of_round _ _ _ round_cx11_mul2, F32.add_eq_of_round _ _ _ round_cx11_add2,
    F32.div_eq_of_round _ _ _ (by norm_num) round_cx11_div]

theorem smooth2F32_cold_20_10_4 : smooth2F32 20 2 25 ⟨F32.fin 10, F32.fin 4⟩ false
    = (F32.fin 24, ⟨F32.fin 20, F32.fin (8388609 / 2097152)⟩) := by
  simp only [smooth2F32, smoothF32, Nat.cast_ofNat]
  rw [ofInt_20, F32.sub_eq_of_round _ _ _ round_20_sub_10, toInt_fin_10,
    exponentialAverageF32_10_4_25]
  simp only [Bool.false_eq_true, if_false]
  rw [F32.add_eq_of_round _ _ _ round_cx11_ret]

theorem smooth2F32_steady_20_d1 : smooth2F32 20 2 25 ⟨F32.fin 20, F32.fin (8388609 / 2097152)⟩ true
    = (F32.fin 24, ⟨F32.fin 20, F32.fin (8388609 / 2097152)⟩) := by
  simp only [smooth2F32, smoothF32, Nat.cast_ofNat]
  rw [ofInt_20, F32.sub_eq_of_round _ _ _ round_20_sub_20, toInt_fin_0,
    exponentialAverageF32_0_d1_25]
  simp only [if_true]
  rw [exponentialAverageF32_20_20_2, F32.add_eq_of_round _ _ _ round_cx11_ret]

theorem round_cx19_sub : F32.round (1 + -(1 / 2 ^ 30) : ℚ) = F32.fin (1) :=
  F32.round_eval _ _ (-1) (16777216) (by decide)
    (by rw [abs_of_nonneg (by norm_num)]; norm_num)
    (by rw [abs_of_nonneg (by norm_num)]; norm_num)
    (Or.inl (by norm_num [abs_lt])) (by norm_num) (by norm_num [abs_lt])

theorem round_3_mul_4 : F32.round (3 * 4 : ℚ) = F32.fin (12) := by
  have h := F32.round_of_eq (3 * 4 : ℚ) (12) (0) (by norm_num) (by decide) (by decide)
    (by decide)
  rw [h]
  norm_num

theorem round_12_add_1 : F32.round (12 + 1 : ℚ) = F32.fin (13) := by
  have h := F32.round_of_eq (12 + 1 : ℚ) (13) (0) (by norm_num) (by decide) (by decide)
    (by decide)
  rw [h]
  norm_num

theorem round_13_div_4 : F32.round (13 / 4 : ℚ) = F32.fin (13 / 4) :=
  F32.round_of_eq (13 / 4 : ℚ) (13) (-2) (by norm_num) (by decide) (by decide) (by decide)

theorem exponentialAverageF32_1_4_2 : exponentialAverageF32 1 (F32.fin 4) 2 = F32.fin (13 / 4) := by
  unfold exponentialAverageF32
  rw [show wrap32 (shl32 1 2 - 1) = 3 by decide, show shl32 1 2 = 4 by decide,
    ofInt_3, ofInt_1, show F32.ofInt 4 = F32.fin 4 by simpa using F32.ofInt_of_abs_le 4 (by decide),
    F32.mul_eq_of_round _ _ _ round_3_mul_4, F32.add_eq_of_round _ _ _ round_12_add_1,
    F32.div_eq_of_round _ _ _ (by norm_num) round_13_div_4]

theorem smooth2F32_delta_1_small : (smooth2F32 1 2 2 ⟨F32.fin (1 / 2 ^ 30), F32.fin 4⟩ true).2.previousDelta
    = F32.fin (13 / 4) := by
  simp only [smooth2F32, Nat.cast_ofNat, Nat.cast_one]
  rw [ofInt_1, F32.sub_eq_of_round _ _ _ round_cx19_sub, toInt_fin_1,
    exponentialAverageF32_1_4_2]

theorem round_65535_sub_0 : F32.round (65535 + -0 : ℚ) = F32.fin 65535 := by
  have h := F32.round_of_eq (65535 + -0 : ℚ) 65535 0 (by norm_num) (by decide) (by decide)
    (by decide)
  rw [h]
  norm_num

theorem round_cx20_mul : F32.round (1073741824 * 0 : ℚ) = F32.fin 0 := by
  rw [show (1073741824 * 0 : ℚ) = 0 by norm_num]
  exact F32.round_zero

theorem round_cx20_add : F32.round (0 + 65535 : ℚ) = F32.fin (65535) := by
  have h := F32.round_of_eq (0 + 65535 : ℚ) (65535) (0) (by norm_num) (by decide) (by decide)
    (by decide)
  rw [h]
  norm_num

theorem round_cx20_div :
    F32.round (65535 / 1073741824 : ℚ) = F32.fin (65535 / 1073741824) :=
  F32.round_of_eq (65535 / 1073741824 : ℚ) (65535) (-30) (by norm_num) (by decide)
    (by decide) (by decide)

theorem round_cx20_ret : F32.round (65535 / 1073741824 + 65535 : ℚ) = F32.fin (65535) :=
  F32.round_eval _ _ (15) (16776960) (by decide)
    (by rw [abs_of_nonneg (by norm_num)]; norm_num)
    (by rw [abs_of_nonneg (by norm_num)]; norm_num)
    (Or.inl (by norm_num [abs_lt])) (by norm_num) (by norm_num [abs_lt])

theorem exponentialAverageF32_65535_0_30 :
    exponentialAverageF32 65535 (F32.fin 0) 30 = F32.fin (65535 / 1073741824) := by
  unfold exponentialAverageF32
  rw [show wrap32 (shl32 1 30 - 1) = 1073741823 by decide,
    show shl32 1 30 = 1073741824 by decide, ofInt_1073741823, ofInt_1073741824, ofInt_65535,
    F32.mul_eq_of_round _ _ _ round_cx20_mul, F32.add_eq_of_round _ _ _ round_cx20_add,
    F32.div_eq_of_round _ _ _ (by norm_num) round_cx20_div]

theorem smooth2F32_cold_65535 : smooth2F32 65535 2 30 ⟨F32.fin 0, F32.fin 0⟩ false
    = (F32.fin 65535, ⟨F32.fin 65535, F32.fin (65535 / 1073741824)⟩) := by
  simp only [smooth2F32, smoothF32, Nat.cast_ofNat]
  rw [ofInt_65535, F32.sub_eq_of_round _ _ _ round_65535_sub_0, toInt_fin_65535,
    exponentialAverageF32_65535_0_30]
  simp only [Bool.false_eq_true, if_false]
  rw [F32.add_eq_of_round _ _ _ round_cx20_ret]

theorem roundHalfEven_abs_sub_le (m : ℚ) : |(roundHalfEven m : ℚ) - m| ≤ 1 / 2 := by
  have hf1 : ((⌊m⌋ : Int) : ℚ) ≤ m := Int.floor_le m
  have hf2 : m < ((⌊m⌋ : Int) : ℚ) + 1 := Int.lt_floor_add_one m
  unfold roundHalfEven
  rw [abs_le]
  split_ifs with h1 h2 h3
  · constructor <;> linarith
  · push_cast
    constructor <;> linarith
  · have hd : m - ((⌊m⌋ : Int) : ℚ) = 1 / 2 := le_antisymm (not_lt.mp h2) (not_lt.mp h1)
    constructor <;> linarith
  · have hd : m - ((⌊m⌋ : Int) : ℚ) = 1 / 2 := le_antisymm (not_lt.mp h2) (not_lt.mp h1)
    push_cast
    constructor <;> linarith

theorem F32.ulp_pos (q : ℚ) : 0 < F32.ulp q := by
  unfold F32.ulp
  positivity

theorem F32.ulp_le (q : ℚ) (hq : q ≠ 0) : F32.ulp q ≤ |q| + 1 := by
  have hpos : (0 : ℚ) < |q| := abs_pos.mpr hq
  unfold F32.ulp
  rcases le_total (Int.log 2 |q|) (-126) with h | h
  · rw [max_eq_right h]
    have : (2 : ℚ) ^ ((-126 : Int) - 23) ≤ 1 := by norm_num
    linarith
  · rw [max_eq_left h]
    have h1 : (2 : ℚ) ^ (Int.log 2 |q|) ≤ |q| := by
      have := @Int.zpow_log_le_self ℚ _ _ 2 |q| (by norm_num) hpos
      exact_mod_cast this
    have h2 : (2 : ℚ) ^ (Int.log 2 |q| - 23) ≤ (2 : ℚ) ^ (Int.log 2 |q|) :=
      zpow_le_zpow_right₀ (by norm_num) (by omega)
    linarith

theorem F32.round_finite (q : ℚ) (h : |q| ≤ 4294967296) : ∃ r : ℚ, F32.round q = F32.fin r := by
  rcases eq_or_ne q 0 with hq | hq
  · exact ⟨0, by rw [hq]; exact F32.round_zero⟩
  · have hu := F32.ulp_pos q
    have hu2 := F32.ulp_le q hq
    have herr := roundHalfEven_abs_sub_le (q / F32.ulp q)
    have hval : |(roundHalfEven (q / F32.ulp q) : ℚ) * F32.ulp q| < (2 : ℚ) ^ (128 : Nat) := by
      have e : (roundHalfEven (q / F32.ulp q) : ℚ) * F32.ulp q
          = q + ((roundHalfEven (q / F32.ulp q) : ℚ) - q / F32.ulp q) * F32.ulp q := by
        field_simp
      rw [e]
      have t1 : |((roundHalfEven (q / F32.ulp q) : ℚ) - q / F32.ulp q) * F32.ulp q|
          ≤ 1 / 2 * F32.ulp q := by
        rw [abs_mul, abs_of_pos hu]
        exact mul_le_mul_of_nonneg_right herr hu.le
      have t2 := abs_add q (((roundHalfEven (q / F32.ulp q) : ℚ) - q / F32.ulp q) * F32.ulp q)
      have t3 : (4294967296 : ℚ) + 1 / 2 * (4294967296 + 1) < (2 : ℚ) ^ (128 : Nat) := by norm_num
      linarith
    refine ⟨(roundHalfEven (q / F32.ulp q) : ℚ) * F32.ulp q, ?_⟩
    unfold F32.round
    rw [if_neg hq, if_neg (not_le.mpr hval)]

theorem F32.ofInt_two_pow (bin : Nat) (h : bin ≤ 30) :
    F32.ofInt ((2 : Int) ^ bin) = F32.fin ((2 : ℚ) ^ bin) := by
  have := F32.round_representable 1 (bin : Int) (by decide) (by omega) (by omega)
  unfold F32.ofInt
  push_cast
  simpa using this

theorem F32.mul_ofInt_zero (n : Int) (h : |n| ≤ 4294967296) :
    F32.mul (F32.ofInt n) (F32.fin 0) = F32.fin 0 := by
  have hq : |(n : ℚ)| ≤ 4294967296 := by
    have : ((|n| : Int) : ℚ) ≤ ((4294967296 : Int) : ℚ) := by exact_mod_cast h
    simpa using this
  obtain ⟨r, hr⟩ := F32.round_finite (n : ℚ) hq
  unfold F32.ofInt
  rw [hr]
  simp only [F32.mul, mul_zero, F32.round_zero]

theorem exponentialAverageF32_old_zero (v : Int) (bin : Nat) (hv : |v| < 16777216)
    (h : bin ≤ 30) :
    exponentialAverageF32 v (F32.fin 0) bin = F32.fin ((v : ℚ) / (2 : ℚ) ^ bin) := by
  have h1 : (2 : Int) ^ bin ≤ 1073741824 := by
    have h2 : (2 : Int) ^ bin ≤ 2 ^ 30 := pow_le_pow_right₀ (by norm_num) h
    norm_num at h2
    exact h2
  have h0 : (0 : Int) < 2 ^ bin := by positivity
  have s2 : shl32 1 bin = 2 ^ bin := by
    unfold shl32 wrap32
    rw [one_mul]
    omega
  have s1 : |wrap32 (shl32 1 bin - 1)| ≤ 4294967296 := by
    rw [s2]
    unfold wrap32
    rw [abs_le]
    constructor <;> omega
  have hdiv : F32.round ((v : ℚ) / (2 : ℚ) ^ bin) = F32.fin ((v : ℚ) / (2 : ℚ) ^ bin) := by
    have := F32.round_representable v (-(bin : Int)) hv (by omega) (by omega)
    rw [zpow_neg, zpow_natCast] at this
    exact this
  have h2ne : ((2 : ℚ) ^ bin) ≠ 0 := by positivity
  unfold exponentialAverageF32
  rw [F32.mul_ofInt_zero _ s1, s2, F32.ofInt_two_pow bin h, F32.ofInt_of_abs_le v hv.le]
  simp only [F32.add, zero_add, F32.round_intCast v hv.le, F32.div, if_neg h2ne]
  exact hdiv

theorem F32.toInt_fin_of_abs_lt_one (q : ℚ) (h : |q| < 1) : F32.toInt (F32.fin q) = 0 := by
  have h' := abs_lt.mp h
  show floatToInt32 q = 0
  rw [floatToInt32_of_range q (by linarith) (by linarith)]
  unfold floatToInt
  rcases le_or_lt 0 q with hq | hq
  · rw [Int.tdiv_eq_ediv (Rat.num_nonneg.mpr hq) (by positivity), ← Rat.floor_def,
      Int.floor_eq_iff]
    constructor
    · simpa using hq
    · simpa using h'.2
  · have hn : floatToInt (-q) = 0 := by
      unfold floatToInt
      rw [Int.tdiv_eq_ediv (Rat.num_nonneg.mpr (by linarith)) (by positivity), ← Rat.floor_def,
        Int.floor_eq_iff]
      constructor
      · simp; linarith
      · simp; linarith
    unfold floatToInt at hn
    rw [Rat.num_neg_eq_neg_num, Rat.den_neg_eq_den, Int.neg_tdiv] at hn
    omega

theorem round_16777216 : F32.round (16777216 : ℚ) = F32.fin 16777216 :=
  F32.round_of_eq _ 8388608 1 (by norm_num) (by decide) (by decide) (by decide)

theorem round_0_mul_0 : F32.round (0 * 0 : ℚ) = F32.fin 0 := by
  rw [zero_mul]
  exact F32.round_zero

theorem round_0_add_16777216 : F32.round (0 + 16777216 : ℚ) = F32.fin 16777216 := by
  have h := F32.round_of_eq (0 + 16777216 : ℚ) 8388608 1 (by norm_num) (by decide)
    (by decide) (by decide)
  rw [h]
  norm_num

theorem round_16777216_div_1 : F32.round (16777216 / 1 : ℚ) = F32.fin 16777216 := by
  have h := F32.round_of_eq (16777216 / 1 : ℚ) 8388608 1 (by norm_num) (by decide)
    (by decide) (by decide)
  rw [h]
  norm_num

theorem exponentialAverageF32_16777217_0_0 :
    exponentialAverageF32 16777217 (F32.fin 0) 0 = F32.fin 16777216 := by
  unfold exponentialAverageF32
  rw [show wrap32 (shl32 1 0 - 1) = 0 by decide, show shl32 1 0 = 1 by decide, ofInt_0,
    ofInt_1, ofInt_16777217, F32.mul_eq_of_round _ _ _ round_0_mul_0,
    F32.add_eq_of_round _ _ _ round_0_add_16777216,
    F32.div_eq_of_round _ _ _ (by norm_num) round_16777216_div_1]

theorem exponentialAverageF32_1_inf_0 :
    exponentialAverageF32 1 (F32.inf false) 0 = F32.nan := by
  unfold exponentialAverageF32
  rw [show wrap32 (shl32 1 0 - 1) = 0 by decide, show shl32 1 0 = 1 by decide, ofInt_0,
    ofInt_1]
  simp [F32.mul, F32.add, F32.div]

theorem round_1_mul_4 : F32.round (1 * 4 : ℚ) = F32.fin 4 := by
  have h := F32.round_of_eq (1 * 4 : ℚ) 4 0 (by norm_num) (by decide) (by decide) (by decide)
  rw [h]
  norm_num

theorem round_4_add_10 : F32.round (4 + 10 : ℚ) = F32.fin 14 := by
  have h := F32.round_of_eq (4 + 10 : ℚ) 14 0 (by norm_num) (by decide) (by decide) (by decide)
  rw [h]
  norm_num

theorem round_14_div_2 : F32.round (14 / 2 : ℚ) = F32.fin 7 := by
  have h := F32.round_of_eq (14 / 2 : ℚ) 7 0 (by norm_num) (by decide) (by decide) (by decide)
  rw [h]
  norm_num

theorem round_7_add_20 : F32.round (7 + 20 : ℚ) = F32.fin 27 := by
  have h := F32.round_of_eq (7 + 20 : ℚ) 27 0 (by norm_num) (by decide) (by decide) (by decide)
  rw [h]
  norm_num

theorem ofInt_2 : F32.ofInt 2 = F32.fin 2 := by
  simpa using F32.ofInt_of_abs_le 2 (by decide)

theorem exponentialAverageF32_10_4_1 : exponentialAverageF32 10 (F32.fin 4) 1 = F32.fin 7 := by
  unfold exponentialAverageF32
  rw [show wrap32 (shl32 1 1 - 1) = 1 by decide, show shl32 1 1 = 2 by decide, ofInt_1,
    ofInt_2, ofInt_10, F32.mul_eq_of_round _ _ _ round_1_mul_4,
    F32.add_eq_of_round _ _ _ round_4_add_10,
    F32.div_eq_of_round _ _ _ (by norm_num) round_14_div_2]

theorem smooth2F32_cold_20_10_4_1 : smooth2F32 20 2 1 ⟨F32.fin 10, F32.fin 4⟩ false
    = (F32.fin 27, ⟨F32.fin 20, F32.fin 7⟩) := by
  simp only [smooth2F32, smoothF32, Nat.cast_ofNat]
  rw [ofInt_20, F32.sub_eq_of_round _ _ _ round_20_sub_10, toInt_fin_10,
    exponentialAverageF32_10_4_1]
  simp only [Bool.false_eq_true, if_false]
  rw [F32.add_eq_of_round _ _ _ round_7_add_20]

theorem round_10_sub_half : F32.round (10 + -(21 / 2) : ℚ) = F32.fin (-(1 / 2)) := by
  have h := F32.round_of_eq (10 + -(21 / 2) : ℚ) (-1) (-1) (by norm_num) (by decide)
    (by decide) (by decide)
  rw [h]
  norm_num

theorem round_3_mul_16777215 : F32.round (3 * 16777215 : ℚ) = F32.fin 50331644 :=
  F32.round_eval _ _ 25 12582911 (by decide)
    (by rw [abs_of_nonneg (by norm_num)]; norm_num)
    (by rw [abs_of_nonneg (by norm_num)]; norm_num)
    (Or.inl (by norm_num [abs_lt])) (by norm_num) (by norm_num [abs_lt])

theorem round_50331644_add_0 : F32.round (50331644 + 0 : ℚ) = F32.fin 50331644 := by
  have h := F32.round_of_eq (50331644 + 0 : ℚ) 12582911 2 (by norm_num) (by decide)
    (by decide) (by decide)
  rw [h]
  norm_num

theorem round_50331644_div_4 : F32.round (50331644 / 4 : ℚ) = F32.fin 12582911 := by
  have h := F32.round_of_eq (50331644 / 4 : ℚ) 12582911 0 (by norm_num) (by decide)
    (by decide) (by decide)
  rw [h]
  norm_num

theorem ofInt_4 : F32.ofInt 4 = F32.fin 4 := by
  simpa using F32.ofInt_of_abs_le 4 (by decide)

theorem exponentialAverageF32_0_16777215_2 :
    exponentialAverageF32 0 (F32.fin 16777215) 2 = F32.fin 12582911 := by
  unfold exponentialAverageF32
  rw [show wrap32 (shl32 1 2 - 1) = 3 by decide, show shl32 1 2 = 4 by decide, ofInt_3,
    ofInt_0, ofInt_4, F32.mul_eq_of_round _ _ _ round_3_mul_16777215,
    F32.add_eq_of_round _ _ _ round_50331644_add_0,
    F32.div_eq_of_round _ _ _ (by norm_num) round_50331644_div_4]

theorem toInt_fin_neg_half : F32.toInt (F32.fin (-(1 / 2))) = 0 :=
  F32.toInt_fin_of_abs_lt_one _ (by rw [abs_lt]; constructor <;> norm_num)

theorem smooth2F32_delta_10_half :
    (smooth2F32 10 2 2 ⟨F32.fin (21 / 2), F32.fin 16777215⟩ true).2.previousDelta
      = F32.fin 12582911 := by
  simp only [smooth2F32, Nat.cast_ofNat]
  rw [ofInt_10, F32.sub_eq_of_round _ _ _ round_10_sub_half, toInt_fin_neg_half,
    exponentialAverageF32_0_16777215_2]

/-! ## Blend -/

/-- C1 (as stated, refuted): `hexWeightedMean(a, b, 0)` is not `a` for every 32-bit `a`:
at `a = 8421505` the product `a * 255` leaves the 32-bit range and the result is
`-8421504`; likewise `hexWeightedMean(0, 8421505, 255)` is `-8421504`. -/
theorem hexWeightedMean_endpoints_overflow :
    hexWeightedMean 8421505 0 0 = -8421504 ∧ hexWeightedMean 8421505 0 0 ≠ 8421505 ∧
    hexWeightedMean 0 8421505 255 = -8421504 ∧ hexWeightedMean 0 8421505 255 ≠ 8421505 := by
  decide

/-- C1 (amended): when `a * 255` fits in 32 bits (`|a| ≤ 8421504`),
`hexWeightedMean(a, b, 0) = a` for every `b`; when `b * 255` fits in 32 bits
(`|b| ≤ 8421504`), `hexWeightedMean(a, b, 255) = b` for every `a`. -/
theorem hexWeightedMean_endpoints (a b : Int) :
    (-8421504 ≤ a ∧ a ≤ 8421504 → hexWeightedMean a b 0 = a) ∧
    (-8421504 ≤ b ∧ b ≤ 8421504 → hexWeightedMean a b 255 = b) := by
  constructor
  · rintro ⟨h1, h2⟩
    have e : wrap32 (wrap32 (a * (255 - ((0 : Nat) : Int))) + wrap32 (b * ((0 : Nat) : Int)))
        = 255 * a := by
      unfold wrap32
      push_cast
      omega
    unfold hexWeightedMean
    rw [e]
    exact Int.mul_tdiv_cancel_left a (by decide)
  · rintro ⟨h1, h2⟩
    have e : wrap32 (wrap32 (a * (255 - ((255 : Nat) : Int)))
        + wrap32 (b * ((255 : Nat) : Int))) = 255 * b := by
      unfold wrap32
      push_cast
      omega
    unfold hexWeightedMean
    rw [e]
    exact Int.mul_tdiv_cancel_left b (by decide)

/-- C1 (amended), instance: `hexWeightedMean(8421504, -7, 0) = 8421504` and
`hexWeightedMean(-7, -8421504, 255) = -8421504`. -/
theorem hexWeightedMean_endpoints_witness :
    hexWeightedMean 8421504 (-7) 0 = 8421504 ∧
    hexWeightedMean (-7) (-8421504) 255 = -8421504 :=
  ⟨(hexWeightedMean_endpoints 8421504 (-7)).1 (by decide),
   (hexWeightedMean_endpoints (-7) (-8421504)).2 (by decide)⟩

/-- C2: for every `value` in `[0, 65535]`, `fast255Divide(value)` differs from the
truncating quotient `value / 255` by at most `1`. -/
theorem fast255Divide_error_le_one (value : Int) (h0 : 0 ≤ value) (h1 : value ≤ 65535) :
    |fast255Divide value - value.tdiv 255| ≤ 1 := by
  have hs : value >>> (8 : Nat) = value / 256 := by
    rw [Int.shiftRight_eq_div_pow]; rfl
  have hw1 : wrap32 (value + 1) = value + 1 := wrap32_of_range _ (by omega) (by omega)
  have hw2 : wrap32 (value + 1 + value / 256) = value + 1 + value / 256 :=
    wrap32_of_range _ (by omega) (by omega)
  have hs2 : (value + 1 + value / 256) >>> (8 : Nat) = (value + 1 + value / 256) / 256 := by
    rw [Int.shiftRight_eq_div_pow]; rfl
  unfold fast255Divide
  rw [hs, hw1, hw2, hs2, Int.tdiv_eq_ediv h0 (by decide), abs_le]
  omega

/-- C2, instance: at `value = 65535` the two quotients are `256` and `257`. -/
theorem fast255Divide_error_le_one_witness :
    fast255Divide 65535 = 256 ∧ (65535 : Int).tdiv 255 = 257 ∧
    |fast255Divide 65535 - (65535 : Int).tdiv 255| ≤ 1 :=
  ⟨by decide, by decide, fast255Divide_error_le_one 65535 (by decide) (by decide)⟩

/-! ## Exponential average -/

/-- C3: for every `newValue`, every `oldValue` and every `bin` in `[0, 30]`,
`exponentialAverage(newValue, oldValue, bin)` is `((2^bin - 1) * oldValue + newValue) / 2^bin`
in exact arithmetic, and `exponentialAverage(100, 50, 2) = 62.5`. -/
theorem exponentialAverage_formula (newValue : Int) (oldValue : ℚ) (bin : Nat)
    (h : bin ≤ 30) :
    exponentialAverage newValue oldValue bin
      = ((2 ^ bin - 1) * oldValue + (newValue : ℚ)) / 2 ^ bin ∧
    exponentialAverage 100 50 2 = 125 / 2 := by
  refine ⟨exponentialAverage_closed newValue oldValue bin h, ?_⟩
  rw [exponentialAverage_closed 100 50 2 (by decide)]
  norm_num

/-- C3, instance: `exponentialAverage(-7, 1/3, 30)` follows the formula with `2^30`. -/
theorem exponentialAverage_formula_witness :
    (30 : Nat) ≤ 30 ∧
    (exponentialAverage (-7) (1 / 3) 30
      = ((2 ^ 30 - 1) * (1 / 3 : ℚ) + ((-7 : Int) : ℚ)) / 2 ^ 30 ∧
    exponentialAverage 100 50 2 = 125 / 2) :=
  ⟨by decide, exponentialAverage_formula (-7) (1 / 3) 30 (by decide)⟩

/-- C4 (as stated, refuted): at `bin = 31` equal values are not a fixed point:
`1 << 31` is `-2^31`, `(1 << 31) - 1` wraps to `2^31 - 1`, and
`exponentialAverage(1, 1, 31) = -1`. -/
theorem exponentialAverage_fixed_point_fails_at_31 :
    shl32 1 31 = -2147483648 ∧ wrap32 (shl32 1 31 - 1) = 2147483647 ∧
    exponentialAverage 1 1 31 = -1 ∧ exponentialAverage 1 1 31 ≠ 1 := by
  refine ⟨by decide, by decide, ?_, ?_⟩ <;>
    norm_num [exponentialAverage, shl32, wrap32]

/-- C4 (amended): for every integer `x` and every `bin` in `[0, 30]`,
`exponentialAverage(x, x, bin) = x`. -/
theorem exponentialAverage_fixed_point (x : Int) (bin : Nat) (h : bin ≤ 30) :
    exponentialAverage x (x : ℚ) bin = (x : ℚ) := by
  rw [exponentialAverage_closed x x bin h]
  have h0 : (2 : ℚ) ^ bin ≠ 0 := by positivity
  field_simp
  ring

/-- C4 (amended), instance: `exponentialAverage(-12345, -12345, 30) = -12345`. -/
theorem exponentialAverage_fixed_point_witness :
    (30 : Nat) ≤ 30 ∧ exponentialAverage (-12345) ((-12345 : Int) : ℚ) 30 = ((-12345 : Int) : ℚ) :=
  ⟨by decide, exponentialAverage_fixed_point (-12345) 30 (by decide)⟩

/-- C5 (as stated, refuted): with `bin = 0` the code returns `(float)x`, which is not `x`
for every integer: `exponentialAverage(16777217, 0.0, 0)` is `16777216`; and with an
infinite old value the product `0 * oldValue` makes the result NaN. -/
theorem exponentialAverage_bin_zero_rounds :
    exponentialAverageF32 16777217 (F32.fin 0) 0 = F32.fin 16777216 ∧
    exponentialAverageF32 16777217 (F32.fin 0) 0 ≠ F32.fin ((16777217 : Int) : ℚ) ∧
    exponentialAverageF32 1 (F32.inf false) 0 = F32.nan := by
  refine ⟨exponentialAverageF32_16777217_0_0, ?_, exponentialAverageF32_1_inf_0⟩
  rw [exponentialAverageF32_16777217_0_0]
  intro h
  injection h with h
  norm_num at h

/-- C5 (amended): for every integer `x` with `|x| ≤ 2^24 = 16777216` (so that its
conversion to `float` is exact) and every finite old value `y`,
`exponentialAverage(x, y, 0)` returns `x` exactly, in binary32; in exact arithmetic it
is `x` for every integer `x` and every `y`. -/
theorem exponentialAverage_bin_zero (x : Int) (y : ℚ) (h : |x| ≤ 16777216) :
    exponentialAverageF32 x (F32.fin y) 0 = F32.fin (x : ℚ) ∧
    (∀ (x1 : Int) (y1 : ℚ), exponentialAverage x1 y1 0 = (x1 : ℚ)) := by
  refine ⟨exponentialAverageF32_zero_shift x y h, fun x1 y1 => ?_⟩
  rw [exponentialAverage_closed x1 y1 0 (by decide)]
  norm_num

/-- C5 (amended), instance: `exponentialAverage(-16777216, 1/3, 0) = -16777216`. -/
theorem exponentialAverage_bin_zero_witness :
    exponentialAverageF32 (-16777216) (F32.fin (1 / 3)) 0
      = F32.fin (((-16777216 : Int)) : ℚ) :=
  (exponentialAverage_bin_zero (-16777216) (1 / 3) (by decide)).1

/-! ## Single-stage smoothing -/

/-- C6 (as stated, refuted): the cold start stores `(float)newValue`, which is not
`newValue` for every integer: `smooth(16777217, 2, &cell, false)` returns and stores
`16777216`. -/
theorem smooth_cold_start_rounds :
    smoothF32 16777217 2 (F32.fin 0) false = (F32.fin 16777216, F32.fin 16777216) ∧
    (smoothF32 16777217 2 (F32.fin 0) false).1 ≠ F32.fin ((16777217 : Int) : ℚ) := by
  have e : smoothF32 16777217 2 (F32.fin 0) false
      = (F32.fin 16777216, F32.fin 16777216) := by
    simp only [smoothF32, Bool.false_eq_true, if_false, ofInt_16777217]
  refine ⟨e, ?_⟩
  rw [e]
  intro h
  injection h with h
  norm_num at h

/-- C6 (amended): cold start of `smooth`: for every `newValue`, `binAlpha` and prior
content of the cell, `smooth(newValue, binAlpha, previousValue, false)` returns
`(float)newValue` and leaves it in the cell; this is `newValue` itself whenever
`|newValue| ≤ 2^24 = 16777216`; `smooth(10, 2, 0.0, false)` returns `10` with the cell
at `10`. -/
theorem smooth_cold_start (newValue : Int) (binAlpha : Nat) (previousValue : F32) :
    smoothF32 newValue binAlpha previousValue false
      = (F32.ofInt newValue, F32.ofInt newValue) ∧
    (|newValue| ≤ 16777216 → smoothF32 newValue binAlpha previousValue false
      = (F32.fin (newValue : ℚ), F32.fin (newValue : ℚ))) ∧
    smoothF32 10 2 (F32.fin 0) false = (F32.fin 10, F32.fin 10) := by
  have e : ∀ (v : Int) (a : Nat) (p : F32),
      smoothF32 v a p false = (F32.ofInt v, F32.ofInt v) := by
    intro v a p
    simp only [smoothF32, Bool.false_eq_true, if_false]
  refine ⟨e _ _ _, fun h => ?_, ?_⟩
  · rw [e, F32.ofInt_of_abs_le newValue h]
  · rw [e, ofInt_10]

/-- C6 (amended), instance: `smooth(-16777216, 2, NaN, false)` returns and stores
`-16777216`. -/
theorem smooth_cold_start_witness :
    smoothF32 (-16777216) 2 F32.nan false
      = (F32.fin (((-16777216 : Int)) : ℚ), F32.fin (((-16777216 : Int)) : ℚ)) :=
  (smooth_cold_start (-16777216) 2 F32.nan).2.1 (by decide)

/-- C7: steady state of `smooth`: `smooth(newValue, binAlpha, p, true)` stores
`exponentialAverage(newValue, p, binAlpha)` in the cell and returns the stored value;
`smooth(20, 2, 10.0, true)` returns `12.5` with the cell at `12.5`. -/
theorem smooth_steady_state (newValue : Int) (binAlpha : Nat) (p : ℚ) :
    (smooth newValue binAlpha p true).2 = exponentialAverage newValue p binAlpha ∧
    (smooth newValue binAlpha p true).1 = (smooth newValue binAlpha p true).2 ∧
    smooth 20 2 10 true = (25 / 2, 25 / 2) := by
  refine ⟨by simp [smooth], by simp [smooth], ?_⟩
  simp only [smooth, if_true]
  rw [exponentialAverage_closed 20 10 2 (by decide)]
  norm_num

/-- C8 (as stated, refuted): in binary32 the filter stalls: `smooth(20, 24, 10.0, true)`
returns `10` and leaves `10` in the cell, so from `v0 = 10` every output is `10`: the first
output is not `((2^24 - 1) * 10 + 20) / 2^24`, the distance to `20` does not shrink and the
outputs do not tend to `20`. -/
theorem smooth_stalls_in_binary32 :
    smoothF32 20 24 (F32.fin 10) true = (F32.fin 10, F32.fin 10) ∧
    (smoothF32 20 24 (F32.fin 10) true).1
      ≠ F32.fin (((2 ^ 24 - 1) * 10 + ((20 : Int) : ℚ)) / 2 ^ 24) := by
  refine ⟨smoothF32_20_24_10, ?_⟩
  rw [smoothF32_20_24_10]
  intro h
  injection h with h
  norm_num at h

/-- C8 (amended): in exact arithmetic (no binary32 rounding): constant input `v`,
`binAlpha` in `[1, 30]` (the proof also covers `binAlpha = 0`), initial cell `v0`, with
`s n` the cell after `n` steady-state calls of `smooth`: each call returns the next `s`;
`s 1 = ((2^binAlpha - 1) * v0 + v) / 2^binAlpha`;
`s n - v = (v0 - v) * ((2^binAlpha - 1) / 2^binAlpha)^n`; `s n` stays on the side of `v`
where `v0` is; `|s (n+1) - v| ≤ |s n - v|`, strictly when `s n ≠ v`; and `s n` tends
to `v`. -/
theorem smooth_constant_input_converges (v : Int) (binAlpha : Nat) (v0 : ℚ)
    (h30 : binAlpha ≤ 30) :
    (∀ n, (smooth v binAlpha (smoothIter v binAlpha v0 n) true).1
        = smoothIter v binAlpha v0 (n + 1)) ∧
    smoothIter v binAlpha v0 1 = ((2 ^ binAlpha - 1) * v0 + (v : ℚ)) / 2 ^ binAlpha ∧
    (∀ n, smoothIter v binAlpha v0 n - (v : ℚ)
        = (v0 - (v : ℚ)) * ((2 ^ binAlpha - 1) / 2 ^ binAlpha) ^ n) ∧
    (∀ n, (v0 ≤ (v : ℚ) → smoothIter v binAlpha v0 n ≤ (v : ℚ)) ∧
        ((v : ℚ) ≤ v0 → (v : ℚ) ≤ smoothIter v binAlpha v0 n)) ∧
    (∀ n, |smoothIter v binAlpha v0 (n + 1) - (v : ℚ)|
        ≤ |smoothIter v binAlpha v0 n - (v : ℚ)|) ∧
    (∀ n, smoothIter v binAlpha v0 n ≠ (v : ℚ) →
        |smoothIter v binAlpha v0 (n + 1) - (v : ℚ)|
          < |smoothIter v binAlpha v0 n - (v : ℚ)|) ∧
    (∀ ε : ℚ, 0 < ε → ∃ N, ∀ n, N ≤ n → |smoothIter v binAlpha v0 n - (v : ℚ)| < ε) := by
  obtain ⟨hr0, hr1⟩ := smoothRatio_bounds binAlpha
  have habs : ∀ n, |smoothIter v binAlpha v0 (n + 1) - (v : ℚ)|
      = (2 ^ binAlpha - 1) / 2 ^ binAlpha * |smoothIter v binAlpha v0 n - (v : ℚ)| := by
    intro n
    rw [smoothIter_step v binAlpha v0 h30 n, abs_mul, abs_of_nonneg hr0]
  refine ⟨fun n => by simp [smoothIter, smooth], ?_, smoothIter_closed v binAlpha v0 h30,
    ?_, ?_, ?_, ?_⟩
  · simp only [smoothIter, smooth, if_true]
    exact exponentialAverage_closed v v0 binAlpha h30
  · intro n
    have hc := smoothIter_closed v binAlpha v0 h30 n
    have hp : (0 : ℚ) ≤ ((2 ^ binAlpha - 1) / 2 ^ binAlpha) ^ n := pow_nonneg hr0 n
    constructor
    · intro hv
      have : (v0 - (v : ℚ)) * ((2 ^ binAlpha - 1) / 2 ^ binAlpha) ^ n ≤ 0 :=
        mul_nonpos_of_nonpos_of_nonneg (by linarith) hp
      linarith
    · intro hv
      have : 0 ≤ (v0 - (v : ℚ)) * ((2 ^ binAlpha - 1) / 2 ^ binAlpha) ^ n :=
        mul_nonneg (by linarith) hp
      linarith
  · intro n
    rw [habs n]
    have := abs_nonneg (smoothIter v binAlpha v0 n - (v : ℚ))
    nlinarith
  · intro n hne
    rw [habs n]
    have hpos : 0 < |smoothIter v binAlpha v0 n - (v : ℚ)| :=
      abs_pos.mpr (sub_ne_zero.mpr hne)
    nlinarith
  · intro ε hε
    have hA : (0 : ℚ) < |v0 - (v : ℚ)| + 1 := by
      have := abs_nonneg (v0 - (v : ℚ))
      linarith
    obtain ⟨N, hN⟩ := exists_pow_lt_of_lt_one (div_pos hε hA) hr1
    refine ⟨N, fun n hn => ?_⟩
    rw [smoothIter_closed v binAlpha v0 h30 n, abs_mul, abs_pow, abs_of_nonneg hr0]
    have hle : ((2 ^ binAlpha - 1) / 2 ^ binAlpha : ℚ) ^ n
        ≤ ((2 ^ binAlpha - 1) / 2 ^ binAlpha) ^ N := pow_le_pow_of_le_one hr0 hr1.le hn
    have hpn : (0 : ℚ) ≤ ((2 ^ binAlpha - 1) / 2 ^ binAlpha) ^ n := pow_nonneg hr0 n
    have hlt : ((2 ^ binAlpha - 1) / 2 ^ binAlpha : ℚ) ^ n < ε / (|v0 - (v : ℚ)| + 1) :=
      lt_of_le_of_lt hle hN
    rw [lt_div_iff₀ hA] at hlt
    have := abs_nonneg (v0 - (v : ℚ))
    nlinarith

/-- C8 (amended), instance: input `20`, `binAlpha = 2`, initial cell `10`: the first output is
`((4 - 1) * 10 + 20) / 4`, the distance to `20` never grows, and after `n` calls it is
`(10 - 20) * (3/4)^n`. -/
theorem smooth_constant_input_converges_witness :
    (2 : Nat) ≤ 30 ∧
    smoothIter 20 2 10 1 = ((2 ^ 2 - 1) * 10 + ((20 : Int) : ℚ)) / 2 ^ 2 ∧
    (∀ n, smoothIter 20 2 10 n - ((20 : Int) : ℚ)
        = (10 - ((20 : Int) : ℚ)) * ((2 ^ 2 - 1) / 2 ^ 2) ^ n) ∧
    (∀ n, |smoothIter 20 2 10 (n + 1) - ((20 : Int) : ℚ)|
        ≤ |smoothIter 20 2 10 n - ((20 : Int) : ℚ)|) :=
  ⟨by decide,
   (smooth_constant_input_converges 20 2 10 (by decide)).2.1,
   (smooth_constant_input_converges 20 2 10 (by decide)).2.2.1,
   (smooth_constant_input_converges 20 2 10 (by decide)).2.2.2.2.1⟩

/-! ## Double exponential smoothing -/

/-- C9: for either value of `started` and every `binAlpha`, after `smooth2` the
`previousDelta` cell is `exponentialAverage(delta, d, binBeta)`, where `delta` is the
`int` the code computes as `newValue - p` from the pre-update `previousValue` `p`; when `p`
is an integer `k` with `|newValue - k| ≤ 2^24` that `delta` is `newValue - k` itself. From
`(10, 4)` with input `20`, `binBeta = 1` and `started = false` the cell becomes
`(4 + 10) / 2 = 7`: the delta `10` comes from the old `previousValue` `10`, not from the
`20` that `smooth` writes, and the delta is smoothed, not seeded. -/
theorem smooth2_trend_update (newValue binAlpha binBeta : Nat) (st : SmoothStateF32)
    (started : Bool) :
    (smooth2F32 newValue binAlpha binBeta st started).2.previousDelta
      = exponentialAverageF32
          (F32.toInt (F32.sub (F32.ofInt (newValue : Int)) st.previousValue))
          st.previousDelta binBeta ∧
    (∀ k : Int, newValue ≤ 65535 → |(newValue : Int) - k| ≤ 16777216 →
      (smooth2F32 newValue binAlpha binBeta ⟨F32.fin (k : ℚ), st.previousDelta⟩
          started).2.previousDelta
        = exponentialAverageF32 ((newValue : Int) - k) st.previousDelta binBeta) ∧
    smooth2F32 20 2 1 ⟨F32.fin 10, F32.fin 4⟩ false
      = (F32.fin 27, ⟨F32.fin 20, F32.fin 7⟩) := by
  refine ⟨rfl, fun k hv hk => ?_, smooth2F32_cold_20_10_4_1⟩
  simp only [smooth2F32]
  rw [(F32.sub_ofInt_intCast newValue k (by omega) hk).2]

/-- C9, instance: `newValue = 20`, `previousValue = -3`: the delta is `23`. -/
theorem smooth2_trend_update_witness :
    (smooth2F32 20 2 1 ⟨F32.fin ((-3 : Int) : ℚ), F32.fin 4⟩ true).2.previousDelta
      = exponentialAverageF32 (((20 : Nat) : Int) - (-3)) (F32.fin 4) 1 :=
  (smooth2_trend_update 20 2 1 ⟨F32.fin 0, F32.fin 4⟩ true).2.1 (-3) (by decide) (by decide)

/-- C10: `smooth2` returns the updated `previousDelta` plus the value returned by
`smooth(newValue, binAlpha, p, started)`, and leaves in `previousValue` what that call of
`smooth` leaves there; e.g. from `(10, 4)` with input `20`, `binAlpha = 2`, `binBeta = 1`
it returns `19.5` and leaves `(12.5, 7)`. -/
theorem smooth2_forecast (newValue binAlpha binBeta : Nat) (st : SmoothState)
    (started : Bool) :
    (smooth2 newValue binAlpha binBeta st started).1
      = (smooth2 newValue binAlpha binBeta st started).2.previousDelta
        + (smooth (newValue : Int) binAlpha st.previousValue started).1 ∧
    (smooth2 newValue binAlpha binBeta st started).2.previousValue
      = (smooth (newValue : Int) binAlpha st.previousValue started).2 ∧
    smooth2 20 2 1 ⟨10, 4⟩ true = (39 / 2, ⟨25 / 2, 7⟩) := by
  refine ⟨rfl, rfl, ?_⟩
  have hd : floatToInt32 ((((20 : Nat) : Int) : ℚ) - 10) = 10 := by
    rw [show ((((20 : Nat) : Int) : ℚ) - 10) = ((10 : Int) : ℚ) by norm_num]
    exact floatToInt32_intCast 10 (by decide) (by decide)
  simp only [smooth2, smooth, if_true]
  rw [hd, exponentialAverage_closed 10 4 1 (by decide),
    exponentialAverage_closed _ 10 2 (by decide)]
  norm_num

/-! ## Blend, continued -/

/-- C12: when the sum `a*(255-percentB) + b*percentB` fits in 32 bits, the integer overload
`hexWeightedMean(a, b, percentB)` is that sum divided by `255` with truncation toward
zero, which is the float overload's exact value truncated toward zero;
`hexWeightedMean(-1, 0, 1) = 0` where flooring the exact value would give `-1`. -/
theorem hexWeightedMean_truncates (a b : Int) (percentB : Nat)
    (h1 : -2147483648 ≤ a * (255 - (percentB : Int)) + b * (percentB : Int))
    (h2 : a * (255 - (percentB : Int)) + b * (percentB : Int) ≤ 2147483647) :
    hexWeightedMean a b percentB
      = (a * (255 - (percentB : Int)) + b * (percentB : Int)).tdiv 255 ∧
    hexWeightedMean a b percentB = floatToInt (hexWeightedMeanF (a : ℚ) (b : ℚ) percentB) ∧
    hexWeightedMean (-1) 0 1 = 0 ∧ ⌊hexWeightedMeanF (-1) 0 1⌋ = -1 := by
  have e := hexWeightedMean_of_sum_in_range a b percentB h1 h2
  refine ⟨e, ?_, by decide, ?_⟩
  · have hF : hexWeightedMeanF (a : ℚ) (b : ℚ) percentB
        = ((a * (255 - (percentB : Int)) + b * (percentB : Int) : Int) : ℚ)
          / ((255 : Nat) : ℚ) := by
      unfold hexWeightedMeanF
      push_cast
      rfl
    rw [hF, floatToInt_div _ 255 (by decide), e]
    rfl
  · rw [Int.floor_eq_iff]
    norm_num [hexWeightedMeanF]

/-- C12, instance: `hexWeightedMean(-1000, 7, 100)`: the sum `-154300` fits in 32 bits and
the result is its truncated quotient by `255`. -/
theorem hexWeightedMean_truncates_witness :
    hexWeightedMean (-1000) 7 100
      = ((-1000 : Int) * (255 - ((100 : Nat) : Int)) + 7 * ((100 : Nat) : Int)).tdiv 255 :=
  (hexWeightedMean_truncates (-1000) 7 100 (by decide) (by decide)).1

/-- C13: in exact arithmetic the floating overload `hexWeightedMean(a, b, percentB)` is
`(a*(255-percentB) + b*percentB) / 255` with no truncation: it is `a` at `percentB = 0`,
`b` at `percentB = 255`, and for `a = 0`, `b = 1`, `percentB = 128` it is `128/255` while
the integer overload returns `0`. -/
theorem hexWeightedMeanF_exact (a b : ℚ) (percentB : Nat) :
    hexWeightedMeanF a b percentB = (a * (255 - (percentB : ℚ)) + b * (percentB : ℚ)) / 255 ∧
    hexWeightedMeanF a b 0 = a ∧ hexWeightedMeanF a b 255 = b ∧
    hexWeightedMeanF 0 1 128 = 128 / 255 ∧ hexWeightedMean 0 1 128 = 0 := by
  refine ⟨?_, ?_, ?_, ?_, by decide⟩
  · unfold hexWeightedMeanF
    push_cast
    rfl
  · norm_num [hexWeightedMeanF]
  · norm_num [hexWeightedMeanF]
  · norm_num [hexWeightedMeanF]

/-- C15: for every `value` in `[0, 65534]`, `fast255Divide(value)` is the truncating
quotient `value / 255`; at `value = 65535` it returns `256` while `65535 / 255 = 257`, so
`65535` is the first non-negative input where the two differ. -/
theorem fast255Divide_exact (value : Int) (h0 : 0 ≤ value) (h1 : value ≤ 65534) :
    fast255Divide value = value.tdiv 255 ∧
    fast255Divide 65535 = 256 ∧ (65535 : Int).tdiv 255 = 257 := by
  refine ⟨?_, by decide, by decide⟩
  rw [fast255Divide_of_range value h0 (by omega), Int.tdiv_eq_ediv h0 (by decide)]
  omega

/-- C15, instance: at `value = 65534` both quotients are `256`. -/
theorem fast255Divide_exact_witness :
    fast255Divide 65534 = (65534 : Int).tdiv 255 ∧ (65534 : Int).tdiv 255 = 256 :=
  ⟨(fast255Divide_exact 65534 (by decide) (by decide)).1, by decide⟩

/-- C16: for all `a`, `b` in `[0, 255]` and `percentB` in `[0, 255]`,
`fast255Divide(a*(255-percentB) + b*percentB)` equals the integer overload
`hexWeightedMean(a, b, percentB)`, and so does the commented-out fast body. -/
theorem fast255Divide_eq_hexWeightedMean (a b : Int) (percentB : Nat)
    (ha : 0 ≤ a ∧ a ≤ 255) (hb : 0 ≤ b ∧ b ≤ 255) (hp : percentB ≤ 255) :
    fast255Divide (a * (255 - (percentB : Int)) + b * (percentB : Int))
      = hexWeightedMean a b percentB ∧
    hexWeightedMeanFast a b percentB = hexWeightedMean a b percentB := by
  obtain ⟨l, u⟩ := blend_sum_bounds a b 0 255 percentB hp ha hb
  have e := hexWeightedMean_of_sum_in_range a b percentB (by omega) (by omega)
  have hf : fast255Divide (a * (255 - (percentB : Int)) + b * (percentB : Int))
      = hexWeightedMean a b percentB := by
    rw [e, fast255Divide_of_range _ (by omega) (by omega), Int.tdiv_eq_ediv (by omega) (by decide)]
    omega
  refine ⟨hf, ?_⟩
  have hw : wrap32 (wrap32 (a * (255 - (percentB : Int))) + wrap32 (b * (percentB : Int)))
      = a * (255 - (percentB : Int)) + b * (percentB : Int) := by
    generalize a * (255 - (percentB : Int)) = x at l u ⊢
    generalize b * (percentB : Int) = y at l u ⊢
    unfold wrap32
    omega
  unfold hexWeightedMeanFast
  rw [hw, hf]

/-- C16, instance: `a = 255`, `b = 255`, `percentB = 128` (the largest sum, `65025`). -/
theorem fast255Divide_eq_hexWeightedMean_witness :
    fast255Divide ((255 : Int) * (255 - ((128 : Nat) : Int)) + 255 * ((128 : Nat) : Int))
      = hexWeightedMean 255 255 128 ∧
    hexWeightedMeanFast 255 255 128 = hexWeightedMean 255 255 128 :=
  fast255Divide_eq_hexWeightedMean 255 255 128 (by decide) (by decide) (by decide)

/-- C17: for all `a`, `b` with `|a|, |b| ≤ 8421504` and every `percentB` in `[0, 255]`,
`min(a, b) ≤ hexWeightedMean(a, b, percentB) ≤ max(a, b)`. -/
theorem hexWeightedMean_between (a b : Int) (percentB : Nat)
    (ha : |a| ≤ 8421504) (hb : |b| ≤ 8421504) (hp : percentB ≤ 255) :
    min a b ≤ hexWeightedMean a b percentB ∧ hexWeightedMean a b percentB ≤ max a b := by
  rw [abs_le] at ha hb
  obtain ⟨l, u⟩ := blend_sum_bounds a b (min a b) (max a b) percentB hp
    ⟨min_le_left a b, le_max_left a b⟩ ⟨min_le_right a b, le_max_right a b⟩
  have hmin : -8421504 ≤ min a b := le_min ha.1 hb.1
  have hmax : max a b ≤ 8421504 := max_le ha.2 hb.2
  rw [hexWeightedMean_of_sum_in_range a b percentB (by omega) (by omega)]
  exact tdiv_255_bounds _ _ _ l u

/-- C17, instance: `hexWeightedMean(-8421504, 8421504, 77)` lies between its inputs. -/
theorem hexWeightedMean_between_witness :
    min (-8421504) 8421504 ≤ hexWeightedMean (-8421504) 8421504 77 ∧
    hexWeightedMean (-8421504) 8421504 77 ≤ max (-8421504) 8421504 :=
  hexWeightedMean_between (-8421504) 8421504 77 (by decide) (by decide) (by decide)

/-! ## Shift safety and convexity of the exponential average -/

/-- C14: for every `bin` in `[0, 30]` the shift `1 << bin` is `2^bin`; `2^bin` and
`2^bin - 1` both lie in the signed 32-bit range, so neither the shift nor the subtraction
wraps; the shift is strictly positive and the divisor of `exponentialAverage` is not
zero. -/
theorem exponentialAverage_shift_safe (bin : Nat) (h : bin ≤ 30) :
    shl32 1 bin = 2 ^ bin ∧
    (-2147483648 ≤ (1 : Int) * 2 ^ bin ∧ (1 : Int) * 2 ^ bin ≤ 2147483647) ∧
    (-2147483648 ≤ shl32 1 bin - 1 ∧ shl32 1 bin - 1 ≤ 2147483647) ∧
    wrap32 (shl32 1 bin - 1) = 2 ^ bin - 1 ∧
    0 < shl32 1 bin ∧ ((shl32 1 bin : Int) : ℚ) ≠ 0 := by
  have h1 := two_pow_le_of_le_30 bin h
  have h0 : (0 : Int) < 2 ^ bin := by positivity
  have e := shl32_one bin h
  refine ⟨e, ⟨by omega, by omega⟩, ⟨by omega, by omega⟩, shl32_one_sub bin h, by omega, ?_⟩
  rw [e]
  positivity

/-- C14, instance: `1 << 30 = 2^30 = 1073741824`, positive and inside the 32-bit range. -/
theorem exponentialAverage_shift_safe_witness :
    shl32 1 30 = 2 ^ 30 ∧ 0 < shl32 1 30 ∧ wrap32 (shl32 1 30 - 1) = 2 ^ 30 - 1 :=
  ⟨(exponentialAverage_shift_safe 30 (by decide)).1,
   (exponentialAverage_shift_safe 30 (by decide)).2.2.2.2.1,
   (exponentialAverage_shift_safe 30 (by decide)).2.2.2.1⟩

/-- C18: for every integer `newValue`, every `oldValue` and every `bin` in `[0, 30]`,
`min(oldValue, newValue) ≤ exponentialAverage(newValue, oldValue, bin)
≤ max(oldValue, newValue)`; hence the value returned by a steady-state call of `smooth`
lies between the old cell and the new sample and is no farther from the sample than the
old cell was. -/
theorem exponentialAverage_between (newValue : Int) (oldValue : ℚ) (bin : Nat)
    (h : bin ≤ 30) :
    (min oldValue (newValue : ℚ) ≤ exponentialAverage newValue oldValue bin ∧
      exponentialAverage newValue oldValue bin ≤ max oldValue (newValue : ℚ)) ∧
    (min oldValue (newValue : ℚ) ≤ (smooth newValue bin oldValue true).1 ∧
      (smooth newValue bin oldValue true).1 ≤ max oldValue (newValue : ℚ)) ∧
    |(smooth newValue bin oldValue true).1 - (newValue : ℚ)|
      ≤ |oldValue - (newValue : ℚ)| := by
  have hs : (0 : ℚ) < 2 ^ bin := by positivity
  have hw : (1 : ℚ) ≤ 2 ^ bin := one_le_pow₀ (by norm_num)
  have hlo : min oldValue (newValue : ℚ) ≤ exponentialAverage newValue oldValue bin := by
    rw [exponentialAverage_closed newValue oldValue bin h, le_div_iff₀ hs]
    have a1 := min_le_left oldValue (newValue : ℚ)
    have a2 := min_le_right oldValue (newValue : ℚ)
    nlinarith
  have hhi : exponentialAverage newValue oldValue bin ≤ max oldValue (newValue : ℚ) := by
    rw [exponentialAverage_closed newValue oldValue bin h, div_le_iff₀ hs]
    have a1 := le_max_left oldValue (newValue : ℚ)
    have a2 := le_max_right oldValue (newValue : ℚ)
    nlinarith
  have hsm : (smooth newValue bin oldValue true).1
      = exponentialAverage newValue oldValue bin := by
    simp [smooth]
  refine ⟨⟨hlo, hhi⟩, ⟨by rw [hsm]; exact hlo, by rw [hsm]; exact hhi⟩, ?_⟩
  obtain ⟨hr0, hr1⟩ := smoothRatio_bounds bin
  have e : exponentialAverage newValue oldValue bin - (newValue : ℚ)
      = (2 ^ bin - 1) / 2 ^ bin * (oldValue - (newValue : ℚ)) := by
    rw [exponentialAverage_closed newValue oldValue bin h]
    field_simp
    ring
  rw [hsm, e, abs_mul, abs_of_nonneg hr0]
  have := abs_nonneg (oldValue - (newValue : ℚ))
  nlinarith

/-- C18, instance: `exponentialAverage(100, 50, 2) = 62.5` lies between `50` and `100`. -/
theorem exponentialAverage_between_witness :
    min (50 : ℚ) ((100 : Int) : ℚ) ≤ exponentialAverage 100 50 2 ∧
    exponentialAverage 100 50 2 ≤ max (50 : ℚ) ((100 : Int) : ℚ) :=
  (exponentialAverage_between 100 50 2 (by decide)).1

/-! ## Double exponential smoothing, continued -/

/-- C19 (as stated, refuted): (1) `newValue = 1`, `previousValue = 2^-30`,
`previousDelta = 4`, `binBeta = 2`: the difference has magnitude below `1`, but the `float`
subtraction rounds it to `1.0`, the delta is `1` and the cell becomes `13/4`, not
`(3/4) * 4`. (2) `newValue = 10`, `previousValue = 10.5`, `previousDelta = 16777215`,
`binBeta = 2`: the delta is `0` but `3 * previousDelta` is rounded and the cell becomes
`12582911`, not `(3/4) * 16777215`. (3) At `binBeta = 31`, even without rounding,
`(1 << 31) - 1` and `1 << 31` have opposite signs and the cell becomes
`-((2^31 - 1) / 2^31) * 4`. -/
theorem smooth2_delta_rounded_difference :
    (|(((1 : Nat) : Int) : ℚ) - 1 / 2 ^ 30| < 1 ∧
      (smooth2F32 1 2 2 ⟨F32.fin (1 / 2 ^ 30), F32.fin 4⟩ true).2.previousDelta
        = F32.fin (13 / 4) ∧
      (smooth2F32 1 2 2 ⟨F32.fin (1 / 2 ^ 30), F32.fin 4⟩ true).2.previousDelta
        ≠ F32.fin ((2 ^ 2 - 1) / 2 ^ 2 * 4)) ∧
    (|(((10 : Nat) : Int) : ℚ) - 21 / 2| < 1 ∧
      (smooth2F32 10 2 2 ⟨F32.fin (21 / 2), F32.fin 16777215⟩ true).2.previousDelta
        = F32.fin 12582911 ∧
      (smooth2F32 10 2 2 ⟨F32.fin (21 / 2), F32.fin 16777215⟩ true).2.previousDelta
        ≠ F32.fin ((2 ^ 2 - 1) / 2 ^ 2 * 16777215)) ∧
    ((smooth2 10 2 31 ⟨21 / 2, 4⟩ true).2.previousDelta = -((2 ^ 31 - 1) / 2 ^ 31 * 4) ∧
      (smooth2 10 2 31 ⟨21 / 2, 4⟩ true).2.previousDelta ≠ (2 ^ 31 - 1) / 2 ^ 31 * 4) := by
  refine ⟨⟨?_, smooth2F32_delta_1_small, ?_⟩, ⟨?_, smooth2F32_delta_10_half, ?_⟩, ?_⟩
  · rw [abs_lt]
    constructor <;> norm_num
  · rw [smooth2F32_delta_1_small]
    intro h
    injection h with h
    norm_num at h
  · rw [abs_lt]
    constructor <;> norm_num
  · rw [smooth2F32_delta_10_half]
    intro h
    injection h with h
    norm_num at h
  · have hz : floatToInt32 ((((10 : Nat) : Int) : ℚ) - 21 / 2) = 0 := by
      rw [floatToInt32_of_range _ (by norm_num) (by norm_num)]
      exact floatToInt_of_abs_lt_one _ (by rw [abs_lt]; constructor <;> norm_num)
    have e : (smooth2 10 2 31 ⟨21 / 2, 4⟩ true).2.previousDelta
        = -((2 ^ 31 - 1) / 2 ^ 31 * 4) := by
      simp only [smooth2]
      rw [hz]
      norm_num [exponentialAverage, shl32, wrap32]
    refine ⟨e, ?_⟩
    rw [e]
    norm_num

/-- C19 (amended): `smooth2` passes to `exponentialAverage` the `float` difference
`newValue - previousValue` converted to `int`, i.e. truncated toward zero (the floor of a
non-negative value, the ceiling of a non-positive one); whenever that computed difference
has magnitude below `1` the integer is `0` and the updated `previousDelta` is
`exponentialAverage(0, previousDelta, binBeta)`, as if the delta were `0`; for `binBeta` in
`[0, 30]` this is `((2^binBeta - 1) / 2^binBeta) * previousDelta` in exact arithmetic;
`newValue = 10`, `previousValue = 10.5` gives the difference `-0.5` and the delta `0`. -/
theorem smooth2_delta_truncated (newValue binAlpha binBeta : Nat) (st : SmoothStateF32)
    (started : Bool) :
    (smooth2F32 newValue binAlpha binBeta st started).2.previousDelta
      = exponentialAverageF32
          (F32.toInt (F32.sub (F32.ofInt (newValue : Int)) st.previousValue))
          st.previousDelta binBeta ∧
    (∀ q : ℚ, -2147483649 < q → q < 2147483648 →
      (0 ≤ q → F32.toInt (F32.fin q) = ⌊q⌋) ∧ (q ≤ 0 → F32.toInt (F32.fin q) = ⌈q⌉)) ∧
    (∀ q : ℚ, F32.sub (F32.ofInt (newValue : Int)) st.previousValue = F32.fin q → |q| < 1 →
      F32.toInt (F32.fin q) = 0 ∧
      (smooth2F32 newValue binAlpha binBeta st started).2.previousDelta
        = exponentialAverageF32 0 st.previousDelta binBeta) ∧
    (∀ d : ℚ, binBeta ≤ 30 →
      exponentialAverage 0 d binBeta = (2 ^ binBeta - 1) / 2 ^ binBeta * d) ∧
    F32.sub (F32.ofInt 10) (F32.fin (21 / 2)) = F32.fin (-(1 / 2)) ∧
    F32.toInt (F32.fin (-(1 / 2))) = 0 := by
  refine ⟨rfl, fun q h1 h2 => ⟨fun h0 => ?_, fun h0 => ?_⟩, fun q hq hlt => ?_,
    fun d hβ => exponentialAverage_zero d binBeta hβ, ?_, toInt_fin_neg_half⟩
  · show floatToInt32 q = ⌊q⌋
    rw [floatToInt32_of_range q h1 h2, floatToInt_of_nonneg q h0]
  · show floatToInt32 q = ⌈q⌉
    rw [floatToInt32_of_range q h1 h2, floatToInt_of_nonpos q h0]
  · have hz := F32.toInt_fin_of_abs_lt_one q hlt
    refine ⟨hz, ?_⟩
    simp only [smooth2F32]
    rw [hq, hz]
  · rw [ofInt_10]
    exact F32.sub_eq_of_round _ _ _ round_10_sub_half

/-- C19 (amended), instance: `newValue = 10`, `previousValue = 10.5`, `previousDelta = 4`,
`binBeta = 2`: the computed difference is `-0.5`, the delta `0`, and the cell becomes
`exponentialAverage(0, 4, 2)`, which in exact arithmetic is `(3/4) * 4`. -/
theorem smooth2_delta_truncated_witness :
    (F32.toInt (F32.fin (-(1 / 2))) = 0 ∧
      (smooth2F32 10 2 2 ⟨F32.fin (21 / 2), F32.fin 4⟩ true).2.previousDelta
        = exponentialAverageF32 0 (F32.fin 4) 2) ∧
    exponentialAverage 0 4 2 = (2 ^ 2 - 1) / 2 ^ 2 * 4 :=
  ⟨(smooth2_delta_truncated 10 2 2 ⟨F32.fin (21 / 2), F32.fin 4⟩ true).2.2.1 (-(1 / 2))
      (by rw [Nat.cast_ofNat, ofInt_10]; exact F32.sub_eq_of_round _ _ _ round_10_sub_half)
      (by rw [abs_lt]; constructor <;> norm_num),
   (smooth2_delta_truncated 10 2 2 ⟨F32.fin (21 / 2), F32.fin 4⟩ true).2.2.2.1 4
      (by decide)⟩

/-- C20 (as stated, refuted): in binary32 `smooth2(65535, 2, 30, 0, 0, false)` returns
exactly `65535`: the sum `65535 / 2^30 + 65535` rounds back to `65535`, so the returned
value is the raw sample although `v ≠ 0`, and it is not `v + v / 2^30`. -/
theorem smooth2_cold_start_returns_sample :
    smooth2F32 65535 2 30 ⟨F32.fin 0, F32.fin 0⟩ false
      = (F32.fin 65535, ⟨F32.fin 65535, F32.fin (65535 / 1073741824)⟩) ∧
    (smooth2F32 65535 2 30 ⟨F32.fin 0, F32.fin 0⟩ false).1
      ≠ F32.fin ((((65535 : Nat) : Int) : ℚ) + (((65535 : Nat) : Int) : ℚ) / 2 ^ 30) := by
  refine ⟨smooth2F32_cold_65535, ?_⟩
  rw [smooth2F32_cold_65535]
  intro h
  injection h with h
  norm_num at h

/-- C20 (amended): for every `uint16` `v`, every `binAlpha` and every `binBeta` in
`[0, 30]`, the cold-start call `smooth2(v, binAlpha, binBeta, previousValue = 0,
previousDelta = 0, started = false)` leaves `previousValue = v` and
`previousDelta = v / 2^binBeta` and returns their `float` sum, i.e. `v / 2^binBeta + v`
rounded to binary32; in exact arithmetic the returned value is `v + v / 2^binBeta`, which
differs from `v` whenever `v ≠ 0`. -/
theorem smooth2_cold_start (v binAlpha binBeta : Nat) (hv : v ≤ 65535)
    (hβ : binBeta ≤ 30) :
    smooth2F32 v binAlpha binBeta ⟨F32.fin 0, F32.fin 0⟩ false
      = (F32.round (((v : Int) : ℚ) / 2 ^ binBeta + ((v : Int) : ℚ)),
          ⟨F32.fin ((v : Int) : ℚ), F32.fin (((v : Int) : ℚ) / 2 ^ binBeta)⟩) ∧
    smooth2 v binAlpha binBeta ⟨0, 0⟩ false
      = (((v : Int) : ℚ) + ((v : Int) : ℚ) / 2 ^ binBeta,
          ⟨((v : Int) : ℚ), ((v : Int) : ℚ) / 2 ^ binBeta⟩) ∧
    (v ≠ 0 → (smooth2 v binAlpha binBeta ⟨0, 0⟩ false).1 ≠ ((v : Int) : ℚ)) := by
  have hvabs : |(v : Int)| < 16777216 := by
    rw [abs_lt]
    constructor <;> omega
  have e32 : smooth2F32 v binAlpha binBeta ⟨F32.fin 0, F32.fin 0⟩ false
      = (F32.round (((v : Int) : ℚ) / 2 ^ binBeta + ((v : Int) : ℚ)),
          ⟨F32.fin ((v : Int) : ℚ), F32.fin (((v : Int) : ℚ) / 2 ^ binBeta)⟩) := by
    have hsub : F32.sub (F32.ofInt (v : Int)) (F32.fin 0) = F32.fin ((v : Int) : ℚ) := by
      rw [F32.ofInt_of_abs_le _ hvabs.le]
      simp only [F32.sub, F32.neg, F32.add, neg_zero, add_zero]
      exact F32.round_intCast _ hvabs.le
    simp only [smooth2F32, smoothF32, Bool.false_eq_true, if_false]
    rw [hsub, F32.toInt_fin_intCast (v : Int) (by omega) (by omega),
      exponentialAverageF32_old_zero (v : Int) binBeta hvabs hβ,
      F32.ofInt_of_abs_le _ hvabs.le]
    rfl
  have e : smooth2 v binAlpha binBeta ⟨0, 0⟩ false
      = (((v : Int) : ℚ) + ((v : Int) : ℚ) / 2 ^ binBeta,
          ⟨((v : Int) : ℚ), ((v : Int) : ℚ) / 2 ^ binBeta⟩) := by
    simp only [smooth2, smooth]
    rw [sub_zero, floatToInt32_intCast (v : Int) (by omega) (by omega),
      exponentialAverage_closed (v : Int) 0 binBeta hβ]
    simp [add_comm]
  refine ⟨e32, e, fun hv0 => ?_⟩
  rw [e]
  have hvpos : (0 : ℚ) < ((v : Int) : ℚ) := by
    have : 0 < v := Nat.pos_of_ne_zero hv0
    exact_mod_cast this
  have hs : (0 : ℚ) < 2 ^ binBeta := by positivity
  have : (0 : ℚ) < ((v : Int) : ℚ) / 2 ^ binBeta := div_pos hvpos hs
  simp only []
  linarith

/-- C20 (amended), instance: `smooth2(10, 2, 1, 0, 0, false)` leaves `(10, 10/2)` and
returns the rounded sum; in exact arithmetic it returns `10 + 10/2`, which is not `10`. -/
theorem smooth2_cold_start_witness :
    smooth2F32 10 2 1 ⟨F32.fin 0, F32.fin 0⟩ false
      = (F32.round ((((10 : Nat) : Int) : ℚ) / 2 ^ 1 + (((10 : Nat) : Int) : ℚ)),
          ⟨F32.fin (((10 : Nat) : Int) : ℚ), F32.fin ((((10 : Nat) : Int) : ℚ) / 2 ^ 1)⟩) ∧
    smooth2 10 2 1 ⟨0, 0⟩ false
      = ((((10 : Nat) : Int) : ℚ) + (((10 : Nat) : Int) : ℚ) / 2 ^ 1,
          ⟨(((10 : Nat) : Int) : ℚ), (((10 : Nat) : Int) : ℚ) / 2 ^ 1⟩) ∧
    (smooth2 10 2 1 ⟨0, 0⟩ false).1 ≠ (((10 : Nat) : Int) : ℚ) :=
  ⟨(smooth2_cold_start 10 2 1 (by decide) (by decide)).1,
   (smooth2_cold_start 10 2 1 (by decide) (by decide)).2.1,
   (smooth2_cold_start 10 2 1 (by decide) (by decide)).2.2 (by decide)⟩

/-- C11 (as stated, refuted): in binary32, input `20`, `binAlpha = 2`, `binBeta = 25`,
initial cells `(10, 4)`: the cold-start call leaves `(20, d1)` with `d1 = 8388609 / 2097152`
and returns `24`; a further call with `started = true` leaves the same cells and returns
`24` again, because `(1 << 25) - 1` converts to `2^25`. So `previousDelta` stays `d1`
instead of `d1 * (2^25 - 1) / 2^25`, it does not tend to `0`, and the forecast `24` is
neither `20 + d1` nor tending to `20`. -/
theorem smooth2_delta_stalls_in_binary32 :
    smooth2F32 20 2 25 ⟨F32.fin 10, F32.fin 4⟩ false
      = (F32.fin 24, ⟨F32.fin 20, F32.fin (8388609 / 2097152)⟩) ∧
    smooth2F32 20 2 25 ⟨F32.fin 20, F32.fin (8388609 / 2097152)⟩ true
      = (F32.fin 24, ⟨F32.fin 20, F32.fin (8388609 / 2097152)⟩) ∧
    (8388609 / 2097152 : ℚ) ≠ 8388609 / 2097152 * ((2 ^ 25 - 1) / 2 ^ 25) ^ 1 ∧
    (24 : ℚ) ≠ 20 + 8388609 / 2097152 := by
  refine ⟨smooth2F32_cold_20_10_4, smooth2F32_steady_20_d1, ?_, ?_⟩ <;> norm_num

/-- C11 (amended): in exact arithmetic (no binary32 rounding): constant input `v`,
`binAlpha` in `[0, 30]`, `binBeta` in `[1, 30]` (the proof also covers `binBeta = 0`),
initial cells `(p0, d0)`: after the cold-start call and `n` further calls with
`started = true`, `previousValue` is `v`, `previousDelta` is
`d1 * ((2^binBeta - 1) / 2^binBeta)^n` with `d1` the delta cell after the cold-start call,
the returned forecast is `v + previousDelta`, `previousDelta` tends to `0` and the forecast
tends to `v`. -/
theorem smooth2_constant_input_converges (v binAlpha binBeta : Nat) (st0 : SmoothState)
    (hα : binAlpha ≤ 30) (hβ : binBeta ≤ 30) :
    (∀ n, (smooth2Iter v binAlpha binBeta st0 n).2.previousValue = ((v : Int) : ℚ)) ∧
    (∀ n, (smooth2Iter v binAlpha binBeta st0 n).2.previousDelta
        = (smooth2 v binAlpha binBeta st0 false).2.previousDelta
          * ((2 ^ binBeta - 1) / 2 ^ binBeta) ^ n) ∧
    (∀ n, (smooth2Iter v binAlpha binBeta st0 n).1
        = ((v : Int) : ℚ) + (smooth2Iter v binAlpha binBeta st0 n).2.previousDelta) ∧
    (∀ ε : ℚ, 0 < ε → ∃ N, ∀ n, N ≤ n →
        |(smooth2Iter v binAlpha binBeta st0 n).2.previousDelta| < ε) ∧
    (∀ ε : ℚ, 0 < ε → ∃ N, ∀ n, N ≤ n →
        |(smooth2Iter v binAlpha binBeta st0 n).1 - ((v : Int) : ℚ)| < ε) := by
  obtain ⟨hr0, hr1⟩ := smoothRatio_bounds binBeta
  have hst := smooth2Iter_state v binAlpha binBeta st0 hα hβ
  refine ⟨fun n => by rw [hst n], fun n => by rw [hst n], fun n => by rw [hst n], ?_, ?_⟩
  · intro ε hε
    obtain ⟨N, hN⟩ := geometric_eventually_small
      (smooth2 v binAlpha binBeta st0 false).2.previousDelta _ ε hr0 hr1 hε
    exact ⟨N, fun n hn => by rw [hst n]; exact hN n hn⟩
  · intro ε hε
    obtain ⟨N, hN⟩ := geometric_eventually_small
      (smooth2 v binAlpha binBeta st0 false).2.previousDelta _ ε hr0 hr1 hε
    refine ⟨N, fun n hn => ?_⟩
    rw [hst n]
    simp only [add_sub_cancel_left]
    exact hN n hn

/-- C11 (amended), instance: input `20`, `binAlpha = 2`, `binBeta = 1`, initial cells `(10, 4)`:
`previousValue` is `20` after every call and each forecast is `20 + previousDelta`. -/
theorem smooth2_constant_input_converges_witness :
    (∀ n, (smooth2Iter 20 2 1 ⟨10, 4⟩ n).2.previousValue = (((20 : Nat) : Int) : ℚ)) ∧
    (∀ n, (smooth2Iter 20 2 1 ⟨10, 4⟩ n).1
        = (((20 : Nat) : Int) : ℚ) + (smooth2Iter 20 2 1 ⟨10, 4⟩ n).2.previousDelta) :=
  ⟨(smooth2_constant_input_converges 20 2 1 ⟨10, 4⟩ (by decide) (by decide)).1,
   (smooth2_constant_input_converges 20 2 1 ⟨10, 4⟩ (by decide) (by decide)).2.2.1⟩

end AudioPixel
